import Mathlib

/-! Recursive name resolution and the multi-protocol dispatcher of `namesys`.

A shallow embedding of `namesys/base.go` (the recursive `resolve` helper) and
`namesys/namesys.go` (the `mpns` dispatcher: `Resolve`, `resolveOnce`,
`PublishWithEOL`).

Conventions of the embedding.

* Go strings are Lean strings; the `strings` functions used by the source are
  defined on the underlying character lists.
* A Go result `(path.Path, error)` is a pair `Path × Option Error`; `none` is
  the nil error.  Go returns both components, and `resolve` really does return
  a path together with `ErrResolveRecursion`.
* Stateful code is explicit state passing.  The `resolver` interface is a
  function on a state `σ`; for the dispatcher the state is the `mpns` value
  (whose only mutable field is the cache) paired with the world `W` of the
  external collaborators (network, DNS, wall clock).
* The `for { ... }` loop of `resolve` takes fuel; termination results are
  stated as "enough fuel gives a result".
-/

set_option autoImplicit false

namespace namesys

/-! ## Go `strings` -/

/-- Go `strings.HasPrefix(s, pfx)`. -/
def HasPrefix (s pfx : String) : Bool :=
  pfx.data.isPrefixOf s.data

/-- Go `strings.TrimPrefix(s, pfx)`: `s` without the leading `pfx`, or `s`
itself when it does not start with `pfx`. -/
def TrimPrefix (s pfx : String) : String :=
  if HasPrefix s pfx then String.mk (s.data.drop pfx.data.length) else s

/-- Go `strings.TrimRight(s, cutset)`: `s` without its longest suffix made of
characters of `cutset`. -/
def TrimRight (s cutset : String) : String :=
  String.mk (s.data.reverse.dropWhile (fun c => cutset.data.contains c)).reverse

/-- The loop of Go `strings.SplitN` for a one-character separator and a
positive count: at most `n` pieces, the last one being the unsplit rest. -/
def splitN (sep : Char) : Nat → List Char → List (List Char)
  | 0, _ => []
  | 1, s => [s]
  | n + 2, s =>
    if s.contains sep then
      s.takeWhile (fun c => c != sep)
        :: splitN sep (n + 1) ((s.dropWhile (fun c => c != sep)).tail)
    else [s]

/-- Go `strings.SplitN(s, sep, n)` where `sep` is a one-byte separator
(the source only ever passes `"/"`) and `n ≥ 0`. -/
def SplitN (s : String) (sep : Char) (n : Nat) : List String :=
  (splitN sep n s.data).map String.mk

/-! ## Values -/

/-- Go `path.Path`, declared as `type Path string`. -/
abbrev Path := String

/-- Go `time.Duration` (nanoseconds). -/
abbrev Duration := Int

/-- Go `time.Time`, as nanoseconds on the wall clock. -/
abbrev Time := Int

/-- The errors of the package and those of its collaborators. -/
inductive Error where
  /-- `ErrResolveFailed`. -/
  | ErrResolveFailed
  /-- `ErrResolveRecursion`. -/
  | ErrResolveRecursion
  /-- Any error value produced by a collaborator (a concrete resolver, the
  path parser, the publisher, key handling). -/
  | other (msg : String)
  deriving DecidableEq, Repr

/-- Modelled from the spec: `opts.ResolveOpts` is declared in the `opts`
package; `Depth` is the hop bound, `0` standing for "unbounded". -/
structure ResolveOpts where
  Depth : Nat
  DhtRecordCount : Nat
  DhtTimeout : Duration
  deriving DecidableEq, Repr

/-- Go `context.Context`, reduced to whether it has been cancelled. -/
structure Context where
  cancelled : Bool
  deriving DecidableEq, Repr

/-- The `resolver` interface of `base.go`: `resolveOnce(ctx, name, options)`
returning `(value, ttl, err)`, over a state `σ`. -/
abbrev resolver (σ : Type) :=
  Context → String → ResolveOpts → σ → (Path × Duration × Option Error) × σ

/-! ## `base.go` -/

/-- The inner `for _, prefix := range prefixes` loop of `resolve`: whether a
prefix matched, and the name for the next hop (replaced only when exactly one
prefix was supplied). `all` is the whole prefix list, for `len(prefixes)`. -/
def matchPrefixes (all : List String) (p : Path) (name : String) :
    List String → Bool × String
  | [] => (false, name)
  | pfx :: rest =>
    if HasPrefix p pfx then
      (true, if all.length = 1 then TrimPrefix p pfx else name)
    else matchPrefixes all p name rest

/-- The `for { ... }` loop of `resolve`, with fuel. `none` is "out of fuel". -/
def resolveLoop {σ : Type} (ctx : Context) (r : resolver σ) (options : ResolveOpts)
    (prefixes : List String) :
    Nat → Nat → String → σ → Option ((Path × Option Error) × σ)
  | 0, _, _, _ => none
  | fuel + 1, depth, name, s =>
    match r ctx name options s with
    | ((p, _, err), s1) =>
      if err ≠ none then some (("", err), s1)
      else if HasPrefix p "/dms3fs/" then some ((p, none), s1)
      else if depth = 1 then some ((p, some Error.ErrResolveRecursion), s1)
      else
        match matchPrefixes prefixes p name prefixes with
        | (matched, name1) =>
          if !matched then some ((p, none), s1)
          else resolveLoop ctx r options prefixes fuel
                 (if depth > 1 then depth - 1 else depth) name1 s1

/-- Go `resolve(ctx, r, name, options, prefixes...)`. -/
def resolve {σ : Type} (ctx : Context) (r : resolver σ) (name : String)
    (options : ResolveOpts) (prefixes : List String) (fuel : Nat) (s : σ) :
    Option ((Path × Option Error) × σ) :=
  resolveLoop ctx r options prefixes fuel options.Depth name s

/-! ## The resolution cache -/

/-- Modelled from the spec: the cache entry of `cache.go`, which is not among
the sources at hand: a path and its absolute expiry. -/
structure cacheEntry where
  val : Path
  eol : Time
  deriving DecidableEq, Repr

/-- Modelled from the spec: the bounded key-to-entry mapping behind
`mpns.cache` (an LRU of the given capacity): entries most recently written
first, the oldest evicted when the capacity is exceeded. -/
structure Cache where
  size : Nat
  entries : List (String × cacheEntry)
  deriving DecidableEq, Repr

/-- Modelled from the spec: the entry stored under `key`, if any. -/
def Cache.Get (c : Cache) (key : String) : Option cacheEntry :=
  c.entries.lookup key

/-- Modelled from the spec: drop the entry stored under `key`. -/
def Cache.Remove (c : Cache) (key : String) : Cache :=
  { c with entries := c.entries.filter (fun kv => kv.1 != key) }

/-- Modelled from the spec: store `e` under `key`, replacing an older entry
under that key and evicting the oldest entries beyond the capacity. -/
def Cache.Add (c : Cache) (key : String) (e : cacheEntry) : Cache :=
  { c with entries := ((key, e) :: c.entries.filter (fun kv => kv.1 != key)).take c.size }

/-! ## `namesys.go` -/

/-- Go `ci.PrivKey`, as its serialised bytes. -/
abbrev PrivKey := List Nat

/-- Go `peer.ID`. -/
abbrev PeerID := String

/-- The `Publisher` interface, reduced to `PublishWithEOL(ctx, name, value, eol)`
over the world `W` of the collaborators. -/
abbrev Publisher (W : Type) :=
  Context → PrivKey → Path → Time → W → Option Error × W

/-- The library functions that `namesys.go` calls and that live outside the
package: the path parser, multihash decoding, domain validation, the wall
clock and the peer-identity helpers. They are parameters of the embedding. -/
structure Lib (W : Type) where
  /-- Go `path.ParsePath`. -/
  ParsePath : String → Path × Option Error
  /-- The error result of `mh.FromB58String`. -/
  FromB58String : String → Option Error
  /-- Go `isd.IsDomain`. -/
  IsDomain : String → Bool
  /-- Go `time.Now()`, read off the world. -/
  Now : W → Time
  /-- Go `peer.IDFromPrivateKey`. -/
  IDFromPrivateKey : PrivKey → PeerID × Option Error
  /-- Go `peer.IDB58Encode`. -/
  IDB58Encode : PeerID → String

/-- Go `path.FromSegments(pfx, seg...)`, which the path library defines as
`ParsePath(pfx + strings.Join(seg, "/"))`. -/
def FromSegments {W : Type} (lib : Lib W) (pfx : String) (seg : List String) :
    Path × Option Error :=
  lib.ParsePath (pfx ++ "/".intercalate seg)

/-- The `mpns` struct: three resolvers, a publisher and the cache pointer
(`none` is the nil cache of a system built with `cachesize <= 0`). -/
structure mpns (W : Type) where
  dnsResolver : resolver W
  proquintResolver : resolver W
  dms3nsResolver : resolver W
  dms3nsPublisher : Publisher W
  cache : Option Cache

/-- Go `NewNameSystem`, given the collaborators it constructs. -/
def NewNameSystem {W : Type} (dnsResolver proquintResolver dms3nsResolver : resolver W)
    (dms3nsPublisher : Publisher W) (cachesize : Int) : mpns W :=
  { dnsResolver := dnsResolver
    proquintResolver := proquintResolver
    dms3nsResolver := dms3nsResolver
    dms3nsPublisher := dms3nsPublisher
    cache := if cachesize > 0 then some { size := cachesize.toNat, entries := [] } else none }

/-- Go `DefaultResolverCacheTTL = time.Minute`, in nanoseconds. -/
def DefaultResolverCacheTTL : Duration := 60000000000

/-- Modelled from the spec: `mpns.cacheGet` of `cache.go`, which is not among
the sources at hand. A hit needs an entry with `now < expiresAt`; a stale
entry found during lookup is removed and counts as a miss; a disabled cache
always misses. -/
def mpns.cacheGet {W : Type} (ns : mpns W) (now : Time) (name : String) :
    (Path × Bool) × mpns W :=
  match ns.cache with
  | none => (("", false), ns)
  | some c =>
    match c.Get name with
    | none => (("", false), ns)
    | some entry =>
      if now < entry.eol then ((entry.val, true), ns)
      else (("", false), { ns with cache := some (c.Remove name) })

/-- Modelled from the spec: `mpns.cacheSet` of `cache.go`, which is not among
the sources at hand. A no-op when the cache is disabled or `ttl <= 0`;
otherwise the entry expires at `now + ttl`. -/
def mpns.cacheSet {W : Type} (ns : mpns W) (now : Time) (name : String) (val : Path)
    (ttl : Duration) : mpns W :=
  match ns.cache with
  | none => ns
  | some c =>
    if ttl ≤ 0 then ns
    else { ns with cache := some (c.Add name { val := val, eol := now + ttl }) }

/-- Lines 104-107 of `mpns.resolveOnce`: rejoin the sub-path, if the name
had one, onto the resolved path. -/
def rejoin {W : Type} (lib : Lib W) (segments : List String) (p : Path) :
    Path × Option Error :=
  if segments.length > 3 then
    FromSegments lib "" [TrimRight p "/", segments.getD 3 ""]
  else (p, none)

/-- Lines 87-94 of `mpns.resolveOnce`: the resolver selected for `key`. -/
def mpns.selectResolver {W : Type} (lib : Lib W) (ns : mpns W) (key : String) :
    resolver W :=
  if lib.FromB58String key = none then ns.dms3nsResolver
  else if lib.IsDomain key then ns.dnsResolver
  else ns.proquintResolver

/-- Go `(*mpns).resolveOnce`, a `resolver` over the dispatcher and the world. -/
def mpns.resolveOnce {W : Type} (lib : Lib W) : resolver (mpns W × W) :=
  fun ctx name0 options s =>
    let ns := s.1
    let w := s.2
    let name := if !HasPrefix name0 "/dms3ns/" then "/dms3ns/" ++ name0 else name0
    let segments := SplitN name '/' 4
    if segments.length < 3 || segments.getD 0 "" != "" then
      (("", 0, some Error.ErrResolveFailed), (ns, w))
    else
      let key := segments.getD 2 ""
      match ns.cacheGet (lib.Now w) key with
      | ((p, ok), ns1) =>
        if !ok then
          match ns.selectResolver lib key ctx key options w with
          | ((p1, ttl, err), w1) =>
            if err ≠ none then (("", 0, some Error.ErrResolveFailed), (ns1, w1))
            else
              match rejoin lib segments p1 with
              | (p2, err2) => ((p2, 0, err2), (ns1.cacheSet (lib.Now w1) key p1 ttl, w1))
        else
          match rejoin lib segments p with
          | (p2, err2) => ((p2, 0, err2), (ns1, w))

/-- Go `(*mpns).Resolve`; `options` is the value of `opts.ProcessOpts(options)`. -/
def mpns.Resolve {W : Type} (lib : Lib W) (ns : mpns W) (ctx : Context) (name : String)
    (options : ResolveOpts) (fuel : Nat) (w : W) :
    Option ((Path × Option Error) × (mpns W × W)) :=
  if HasPrefix name "/dms3fs/" then some (lib.ParsePath name, (ns, w))
  else if !HasPrefix name "/" then some (lib.ParsePath ("/dms3fs/" ++ name), (ns, w))
  else resolve ctx (mpns.resolveOnce lib) name options ["/dms3ns/"] fuel (ns, w)

/-- Go `time.Duration` is an `int64`: its least value. -/
def minDuration : Duration := -9223372036854775808

/-- Go `time.Duration` is an `int64`: its greatest value. -/
def maxDuration : Duration := 9223372036854775807

/-- Go `Time.Sub`: the duration `t - u`, which the `time` package saturates
at the least and the greatest `Duration` when the difference does not fit. -/
def Sub (t u : Time) : Duration :=
  if t - u < minDuration then minDuration
  else if maxDuration < t - u then maxDuration
  else t - u

/-- Go `(*mpns).PublishWithEOL`. -/
def mpns.PublishWithEOL {W : Type} (lib : Lib W) (ns : mpns W) (ctx : Context)
    (name : PrivKey) (value : Path) (eol : Time) (w : W) : Option Error × (mpns W × W) :=
  match lib.IDFromPrivateKey name with
  | (id, err) =>
    if err ≠ none then (err, (ns, w))
    else
      match ns.dms3nsPublisher ctx name value eol w with
      | (err1, w1) =>
        if err1 ≠ none then (err1, (ns, w1))
        else
          let ttl := DefaultResolverCacheTTL
          let ttEol := Sub eol (lib.Now w1)
          let ttl := if ttEol < ttl then ttEol else ttl
          (none, (ns.cacheSet (lib.Now w1) (lib.IDB58Encode id) value ttl, w1))

/-! ## Observing invocations

Call-recording doubles: a resolver wrapped by `logged` behaves as the resolver
it wraps and appends each invocation to a log carried next to the state. -/

/-- The three concrete resolvers of the dispatcher. -/
inductive ResolverKind where
  | dms3ns
  | dns
  | proquint
  deriving DecidableEq, Repr

/-- One recorded invocation: the tag of the resolver and the name it was given. -/
abbrev Call (τ : Type) := τ × String

/-- A resolver that records, under tag `k`, every invocation made of it. -/
def logged {σ τ : Type} (k : τ) (r : resolver σ) : resolver (σ × List (Call τ)) :=
  fun ctx name options s =>
    match r ctx name options s.1 with
    | (res, s1) => (res, (s1, s.2 ++ [(k, name)]))

/-- The dispatcher with each concrete resolver replaced by its recording double. -/
def mpns.instrument {W : Type} (ns : mpns W) : mpns (W × List (Call ResolverKind)) :=
  { dnsResolver := logged ResolverKind.dns ns.dnsResolver
    proquintResolver := logged ResolverKind.proquint ns.proquintResolver
    dms3nsResolver := logged ResolverKind.dms3ns ns.dms3nsResolver
    dms3nsPublisher := fun ctx k v eol s =>
      match ns.dms3nsPublisher ctx k v eol s.1 with
      | (err, w1) => (err, (w1, s.2))
    cache := ns.cache }

/-- The library over the world extended with a call log. -/
def Lib.instrument {W : Type} (lib : Lib W) : Lib (W × List (Call ResolverKind)) :=
  { ParsePath := lib.ParsePath
    FromB58String := lib.FromB58String
    IsDomain := lib.IsDomain
    Now := fun s => lib.Now s.1
    IDFromPrivateKey := lib.IDFromPrivateKey
    IDB58Encode := lib.IDB58Encode }

/-! ## Hops of the recursive loop and segments of a name -/

/-- The name and the state with which hop `i` (counted from 0) of `resolve` is
made, provided every earlier hop matched a prefix and the loop went on. -/
def hopInput {σ : Type} (ctx : Context) (r : resolver σ) (options : ResolveOpts)
    (prefixes : List String) (name : String) (s : σ) : Nat → String × σ
  | 0 => (name, s)
  | i + 1 =>
    match hopInput ctx r options prefixes name s i with
    | (nm, st) =>
      match r ctx nm options st with
      | ((p, _, _), st1) => ((matchPrefixes prefixes p nm prefixes).2, st1)

/-- What hop `i` returns: the resolver applied to the input of hop `i`. -/
def hopOutput {σ : Type} (ctx : Context) (r : resolver σ) (options : ResolveOpts)
    (prefixes : List String) (name : String) (s : σ) (i : Nat) :
    (Path × Duration × Option Error) × σ :=
  r ctx (hopInput ctx r options prefixes name s i).1 options
    (hopInput ctx r options prefixes name s i).2

/-- The local `depth` after `i` hops that all went on, starting from `d`. -/
def depthAfter (d i : Nat) : Nat := if d = 0 then 0 else d - i

/-- The name as normalised by the first statement of `mpns.resolveOnce`. -/
def normalise (name : String) : String :=
  if !HasPrefix name "/dms3ns/" then "/dms3ns/" ++ name else name

/-- The `segments` of `mpns.resolveOnce` for a given argument. -/
def segmentsOf (name : String) : List String :=
  SplitN (normalise name) '/' 4

/-- The `key` of `mpns.resolveOnce` for a given argument: `segments[2]`. -/
def keyOf (name : String) : String :=
  (segmentsOf name).getD 2 ""

/-! ## Test doubles

A small concrete system for evaluating the code on explicit inputs: resolvers
driven by a table of pointers, over a world that is just the wall clock. -/

/-- A resolver double: looks its argument up in a table of pointers, every
pointer with the same lifetime; an unknown name is an error. -/
def tableResolver (table : List (String × Path)) (ttl : Duration) : resolver Time :=
  fun _ name _ w =>
    match table.lookup name with
    | some p => ((p, ttl, none), w)
    | none => (("", 0, some (Error.other "routing: not found")), w)

/-- A library double: the parser accepts what begins with `/dms3fs/` or with
`/dms3ns/`; a key beginning with `Qm` decodes as a multihash; a key with a dot
is a domain; the clock is the world. -/
def testLib : Lib Time :=
  { ParsePath := fun s =>
      if HasPrefix s "/dms3fs/" || HasPrefix s "/dms3ns/" then (s, none)
      else ("", some (Error.other "invalid path"))
    FromB58String := fun k =>
      if HasPrefix k "Qm" then none else some (Error.other "invalid multihash")
    IsDomain := fun k => k.data.contains '.'
    Now := fun w => w
    IDFromPrivateKey := fun _ => ("QmPublisher", none)
    IDB58Encode := fun i => i }

/-- A chain of three mutable-name pointers ending in a content path. -/
def chain : List (String × Path) :=
  [("Qmn0", "/dms3ns/Qmn1"), ("Qmn1", "/dms3ns/Qmn2"), ("Qmn2", "/dms3fs/Qmcontent")]

/-- A dispatcher over `chain`, with a cache of four entries. -/
def chainNs : mpns Time :=
  NewNameSystem (tableResolver [] 0) (tableResolver [] 0) (tableResolver chain 1000)
    (fun _ _ _ _ w => (none, w)) 4

/-- Two pointers forming a cycle. -/
def cycle : List (String × Path) :=
  [("a", "/dms3ns/b"), ("b", "/dms3ns/a")]

/-- Options asking for the given depth. -/
def depthOpts (d : Nat) : ResolveOpts :=
  { Depth := d, DhtRecordCount := 16, DhtTimeout := 0 }

/-- A live context. -/
def background : Context := { cancelled := false }

/-- What a call of `mpns.Resolve` lets a caller observe: the returned pair and
the log of the recording doubles. -/
def observe {W : Type}
    (out : Option ((Path × Option Error) × (mpns (W × List (Call ResolverKind))
      × (W × List (Call ResolverKind))))) :
    Option ((Path × Option Error) × List (Call ResolverKind)) :=
  out.map (fun x => (x.1, x.2.2.2))

/-- The entries held by the dispatcher's cache (none when it is disabled). -/
def mpns.entries {W : Type} (ns : mpns W) : List (String × cacheEntry) :=
  match ns.cache with
  | none => []
  | some c => c.entries

/-- A dispatcher whose dms3ns resolver knows one pointer, `key → /dms3ns/key2/`. -/
def slashNs : mpns Time :=
  NewNameSystem (tableResolver [] 0) (tableResolver [] 0)
    (tableResolver [("Qmkey", "/dms3ns/Qmkey2/")] 1000) (fun _ _ _ _ w => (none, w)) 4

/-- A dispatcher over `chain` whose cache holds a live entry for `Qmn0`. -/
def warmNs : mpns Time :=
  { chainNs with
    cache := some { size := 4, entries := [("Qmn0", { val := "/dms3fs/Qmcached", eol := 50 })] } }

/-- One hour, in nanoseconds. -/
def hour : Duration := 3600000000000

/-- A private key for the publishing examples. -/
def testKey : PrivKey := [1, 2, 3]
/-- A context that has been cancelled. -/
def cancelledCtx : Context := { cancelled := true }

/-- A dispatcher over `chain` whose cache holds, under `Qmunknown`, an entry
that expired at time 5. -/
def staleNs : mpns Time :=
  { chainNs with
    cache := some { size := 4, entries := [("Qmunknown", { val := "/dms3fs/Qmold", eol := 5 })] } }

/-- A dispatcher over `chain` built with `cachesize = 0`: its cache is nil. -/
def coldNs : mpns Time :=
  NewNameSystem (tableResolver [] 0) (tableResolver [] 0) (tableResolver chain 1000)
    (fun _ _ _ _ w => (none, w)) 0

/-- A dispatcher whose proquint resolver decodes `kajof-katoh` to the raw
bytes `abcd`, as the proquint decoding does: a value with no namespace. -/
def rawNs : mpns Time :=
  NewNameSystem (tableResolver [] 0) (tableResolver [("kajof-katoh", "abcd")] 1000)
    (tableResolver [] 0) (fun _ _ _ _ w => (none, w)) 4

/-! ## Lemmas -/

theorem matchPrefixes_fst (all : List String) (p : Path) (name : String) (l : List String) :
    (matchPrefixes all p name l).1 = true ↔ ∃ pfx ∈ l, HasPrefix p pfx = true := by
  induction l with
  | nil => simp [matchPrefixes]
  | cons a l ih =>
    by_cases h : HasPrefix p a = true
    · simp [matchPrefixes, h]
    · simp [matchPrefixes, h, ih]

theorem resolveLoop_step_go {σ : Type} (ctx : Context) (r : resolver σ) (options : ResolveOpts)
    (prefixes : List String) (fuel depth : Nat) (name : String) (s : σ)
    (herr : (r ctx name options s).1.2.2 = none)
    (hfs : HasPrefix (r ctx name options s).1.1 "/dms3fs/" = false)
    (hd : depth ≠ 1)
    (hm : (matchPrefixes prefixes (r ctx name options s).1.1 name prefixes).1 = true) :
    resolveLoop ctx r options prefixes (fuel + 1) depth name s =
      resolveLoop ctx r options prefixes fuel (if depth > 1 then depth - 1 else depth)
        (matchPrefixes prefixes (r ctx name options s).1.1 name prefixes).2
        (r ctx name options s).2 := by
  rcases hr : r ctx name options s with ⟨⟨p, ttl, err⟩, s1⟩
  rw [hr] at herr hfs hm
  simp only at herr hfs hm
  subst herr
  rcases hmp : matchPrefixes prefixes p name prefixes with ⟨matched, name1⟩
  rw [hmp] at hm
  simp only at hm
  subst hm
  simp [resolveLoop, hr, hfs, hd, hmp]

theorem resolveLoop_step_content {σ : Type} (ctx : Context) (r : resolver σ)
    (options : ResolveOpts) (prefixes : List String) (fuel depth : Nat) (name : String) (s : σ)
    (herr : (r ctx name options s).1.2.2 = none)
    (hfs : HasPrefix (r ctx name options s).1.1 "/dms3fs/" = true) :
    resolveLoop ctx r options prefixes (fuel + 1) depth name s =
      some (((r ctx name options s).1.1, none), (r ctx name options s).2) := by
  rcases hr : r ctx name options s with ⟨⟨p, ttl, err⟩, s1⟩
  rw [hr] at herr hfs
  simp only at herr hfs
  subst herr
  simp [resolveLoop, hr, hfs]

theorem resolveLoop_step_limit {σ : Type} (ctx : Context) (r : resolver σ)
    (options : ResolveOpts) (prefixes : List String) (fuel : Nat) (name : String) (s : σ)
    (herr : (r ctx name options s).1.2.2 = none)
    (hfs : HasPrefix (r ctx name options s).1.1 "/dms3fs/" = false) :
    resolveLoop ctx r options prefixes (fuel + 1) 1 name s =
      some (((r ctx name options s).1.1, some Error.ErrResolveRecursion),
        (r ctx name options s).2) := by
  rcases hr : r ctx name options s with ⟨⟨p, ttl, err⟩, s1⟩
  rw [hr] at herr hfs
  simp only at herr hfs
  subst herr
  simp [resolveLoop, hr, hfs]

theorem depthAfter_zero (d : Nat) : depthAfter d 0 = d := by
  unfold depthAfter
  split <;> omega

theorem resolveLoop_after_hops {σ : Type} (ctx : Context) (r : resolver σ)
    (options : ResolveOpts) (prefixes : List String) (depth : Nat) (name : String) (s : σ)
    (k : Nat) :
    ∀ fuel : Nat,
    (∀ i, i < k →
      (hopOutput ctx r options prefixes name s i).1.2.2 = none ∧
      HasPrefix (hopOutput ctx r options prefixes name s i).1.1 "/dms3fs/" = false ∧
      (matchPrefixes prefixes (hopOutput ctx r options prefixes name s i).1.1
        (hopInput ctx r options prefixes name s i).1 prefixes).1 = true) →
    (depth = 0 ∨ k < depth) →
    resolveLoop ctx r options prefixes (fuel + k) depth name s =
      resolveLoop ctx r options prefixes fuel (depthAfter depth k)
        (hopInput ctx r options prefixes name s k).1
        (hopInput ctx r options prefixes name s k).2 := by
  induction k with
  | zero =>
    intro fuel _ _
    simp [depthAfter_zero, hopInput]
  | succ k ih =>
    intro fuel hgo hdepth
    have h1 := ih (fuel + 1) (fun i hi => hgo i (Nat.lt_succ_of_lt hi))
      (by omega)
    have e : fuel + (k + 1) = fuel + 1 + k := by omega
    rw [e, h1]
    obtain ⟨herr, hfs, hm⟩ := hgo k (Nat.lt_succ_self k)
    unfold hopOutput at herr hfs hm
    have hne : depthAfter depth k ≠ 1 := by
      unfold depthAfter
      split <;> omega
    rw [resolveLoop_step_go ctx r options prefixes fuel _ _ _ herr hfs hne hm]
    have hda : (if depthAfter depth k > 1 then depthAfter depth k - 1 else depthAfter depth k)
        = depthAfter depth (k + 1) := by
      unfold depthAfter
      split <;> split <;> omega
    rw [hda]
    rfl

theorem resolveLoop_logged_bound {σ : Type} (ctx : Context) (r : resolver σ)
    (options : ResolveOpts) (prefixes : List String) :
    ∀ (fuel d : Nat) (name : String) (s : σ) (log0 : List (Call Unit)),
      1 ≤ d → d ≤ fuel →
      ∃ res s1 log,
        resolveLoop ctx (logged () r) options prefixes fuel d name (s, log0)
          = some (res, (s1, log)) ∧ log.length ≤ log0.length + d := by
  intro fuel
  induction fuel with
  | zero => intro d _ _ _ h1 h2; omega
  | succ fuel ih =>
    intro d name s log0 h1 h2
    rcases hr : r ctx name options s with ⟨⟨p, ttl, err⟩, s1⟩
    have hl : logged () r ctx name options (s, log0)
        = ((p, ttl, err), (s1, log0 ++ [((), name)])) := by
      simp [logged, hr]
    by_cases herr : err = none
    · subst herr
      by_cases hfs : HasPrefix p "/dms3fs/" = true
      · exact ⟨(p, none), s1, log0 ++ [((), name)], by simp [resolveLoop, hl, hfs],
          by simp; omega⟩
      · by_cases hd : d = 1
        · exact ⟨(p, some Error.ErrResolveRecursion), s1, log0 ++ [((), name)],
            by simp [resolveLoop, hl, hfs, hd], by simp; omega⟩
        · rcases hmp : matchPrefixes prefixes p name prefixes with ⟨matched, name1⟩
          cases matched with
          | false =>
            exact ⟨(p, none), s1, log0 ++ [((), name)],
              by simp [resolveLoop, hl, hfs, hd, hmp], by simp; omega⟩
          | true =>
            obtain ⟨res, s2, log, he, hlen⟩ :=
              ih (d - 1) name1 s1 (log0 ++ [((), name)]) (by omega) (by omega)
            refine ⟨res, s2, log, ?_, ?_⟩
            · have hgt : d > 1 := by omega
              simp [resolveLoop, hl, hfs, hd, hmp, hgt, he]
            · simp at hlen; omega
    · exact ⟨("", err), s1, log0 ++ [((), name)], by simp [resolveLoop, hl, herr],
        by simp; omega⟩

theorem HasPrefix_iff (s pfx : String) : HasPrefix s pfx = true ↔ ∃ t : String, s = pfx ++ t := by
  unfold HasPrefix
  rw [List.isPrefixOf_iff_prefix]
  constructor
  · rintro ⟨t, ht⟩
    exact ⟨String.mk t, by apply String.ext; simp [ht]⟩
  · rintro ⟨t, rfl⟩
    exact ⟨t.data, by simp⟩

theorem HasPrefix_append (pfx t : String) : HasPrefix (pfx ++ t) pfx = true :=
  (HasPrefix_iff _ _).2 ⟨t, rfl⟩

theorem not_content_of_dms3ns (t : String) : HasPrefix ("/dms3ns/" ++ t) "/dms3fs/" = false := by
  simp [HasPrefix, String.data_append, List.isPrefixOf]

theorem splitN_no_sep (sep : Char) (n : Nat) (s : List Char) (h : sep ∉ s) :
    splitN sep (n + 1) s = [s] := by
  cases n with
  | zero => simp [splitN]
  | succ n => simp [splitN, h]

theorem takeWhile_ne_append (sep : Char) (a rest : List Char) (h : sep ∉ a) :
    (a ++ sep :: rest).takeWhile (fun c => c != sep) = a := by
  induction a with
  | nil => simp
  | cons x a ih =>
    have hx : x ≠ sep := fun e => h (by simp [e])
    have ha : sep ∉ a := fun e => h (by simp [e])
    have hb : (x != sep) = true := by simp [hx]
    simp [List.takeWhile_cons, hb, ih ha]

theorem dropWhile_ne_append (sep : Char) (a rest : List Char) (h : sep ∉ a) :
    (a ++ sep :: rest).dropWhile (fun c => c != sep) = sep :: rest := by
  induction a with
  | nil => simp
  | cons x a ih =>
    have hx : x ≠ sep := fun e => h (by simp [e])
    have ha : sep ∉ a := fun e => h (by simp [e])
    have hb : (x != sep) = true := by simp [hx]
    simp [List.dropWhile_cons, hb, ih ha]

theorem splitN_sep (sep : Char) (n : Nat) (a rest : List Char) (h : sep ∉ a) :
    splitN sep (n + 2) (a ++ sep :: rest) = a :: splitN sep (n + 1) rest := by
  simp [splitN, takeWhile_ne_append sep a rest h, dropWhile_ne_append sep a rest h]

theorem normalise_eq (name : String) : normalise name = "/dms3ns/" ++ TrimPrefix name "/dms3ns/" := by
  unfold normalise TrimPrefix
  by_cases h : HasPrefix name "/dms3ns/" = true
  · obtain ⟨t, rfl⟩ := (HasPrefix_iff _ _).1 h
    simp [h]
  · simp [h]

theorem SplitN_dms3ns (rest : String) :
    SplitN ("/dms3ns/" ++ rest) '/' 4 = "" :: "dms3ns" :: SplitN rest '/' 2 := by
  unfold SplitN
  have e : ("/dms3ns/" ++ rest).data
      = [] ++ '/' :: (['d', 'm', 's', '3', 'n', 's'] ++ '/' :: rest.data) := by
    simp [String.data_append]
  rw [e, splitN_sep '/' 2 [] _ (by simp), splitN_sep '/' 1 _ _ (by decide)]
  rfl

theorem segmentsOf_eq (name : String) :
    segmentsOf name = "" :: "dms3ns" :: SplitN (TrimPrefix name "/dms3ns/") '/' 2 := by
  unfold segmentsOf
  rw [normalise_eq, SplitN_dms3ns]

theorem SplitN_two (rest : String) :
    SplitN rest '/' 2 =
      if rest.data.contains '/' then
        [String.mk (rest.data.takeWhile (fun c => c != '/')),
         String.mk ((rest.data.dropWhile (fun c => c != '/')).tail)]
      else [rest] := by
  unfold SplitN
  by_cases h : '/' ∈ rest.data
  · simp [splitN, h]
  · simp [splitN, h]

/-- Every argument of `mpns.resolveOnce` splits into an empty first segment,
the namespace, the key and at most one sub-path segment. -/
theorem segmentsOf_shape (name : String) :
    ∃ tl : List String, segmentsOf name = "" :: "dms3ns" :: keyOf name :: tl ∧ tl.length ≤ 1 := by
  have h := segmentsOf_eq name
  unfold keyOf
  rw [h, SplitN_two]
  by_cases hc : (TrimPrefix name "/dms3ns/").data.contains '/' = true
  · rw [if_pos hc]
    exact ⟨[String.mk (((TrimPrefix name "/dms3ns/").data.dropWhile
      (fun c => c != '/')).tail)], by simp, by simp⟩
  · rw [if_neg hc]
    exact ⟨[], by simp, by simp⟩

theorem normalise_dms3ns (t : String) : normalise ("/dms3ns/" ++ t) = "/dms3ns/" ++ t := by
  simp [normalise, HasPrefix_append]

theorem segmentsOf_key (k : String) (hk : '/' ∉ k.data) :
    segmentsOf ("/dms3ns/" ++ k) = ["", "dms3ns", k] := by
  unfold segmentsOf
  rw [normalise_dms3ns, SplitN_dms3ns, SplitN_two]
  simp [hk]

theorem segmentsOf_key_sub (k sub : String) (hk : '/' ∉ k.data) :
    segmentsOf ("/dms3ns/" ++ k ++ "/" ++ sub) = ["", "dms3ns", k, sub] := by
  unfold segmentsOf
  have e : "/dms3ns/" ++ k ++ "/" ++ sub = "/dms3ns/" ++ (k ++ "/" ++ sub) := by
    simp [String.append_assoc]
  rw [e, normalise_dms3ns, SplitN_dms3ns]
  unfold SplitN
  have d : (k ++ "/" ++ sub).data = k.data ++ '/' :: sub.data := by
    simp [String.data_append]
  rw [d, splitN_sep '/' 0 _ _ hk]
  simp [splitN]

theorem resolveOnce_eq {W : Type} (lib : Lib W) (ctx : Context) (name : String)
    (options : ResolveOpts) (ns : mpns W) (w : W) :
    mpns.resolveOnce lib ctx name options (ns, w) =
      match ns.cacheGet (lib.Now w) (keyOf name) with
      | ((p, ok), ns1) =>
        if !ok then
          match ns.selectResolver lib (keyOf name) ctx (keyOf name) options w with
          | ((p1, ttl, err), w1) =>
            if err ≠ none then (("", 0, some Error.ErrResolveFailed), (ns1, w1))
            else
              match rejoin lib (segmentsOf name) p1 with
              | (p2, err2) =>
                ((p2, 0, err2), (ns1.cacheSet (lib.Now w1) (keyOf name) p1 ttl, w1))
        else
          match rejoin lib (segmentsOf name) p with
          | (p2, err2) => ((p2, 0, err2), (ns1, w)) := by
  obtain ⟨tl, hs, _⟩ := segmentsOf_shape name
  have hg : ((segmentsOf name).length < 3 || (segmentsOf name).getD 0 "" != "") = false := by
    rw [hs]; simp
  have hn : (if (!HasPrefix name "/dms3ns/") = true then "/dms3ns/" ++ name else name)
      = normalise name := rfl
  unfold mpns.resolveOnce
  simp only [hn]
  have hseg : SplitN (normalise name) '/' 4 = segmentsOf name := rfl
  simp only [hseg]
  have hkey : (segmentsOf name).getD 2 "" = keyOf name := rfl
  simp only [hkey, hg]
  rfl

theorem HasPrefix_slash_of_content (s : String) (h : HasPrefix s "/dms3fs/" = true) :
    HasPrefix s "/" = true := by
  obtain ⟨t, rfl⟩ := (HasPrefix_iff _ _).1 h
  exact (HasPrefix_iff _ _).2 ⟨"dms3fs/" ++ t, by rw [← String.append_assoc]; rfl⟩

/-- C1: a well-formed path that begins with `/dms3fs/` is returned as it is,
with no error, for every option value and any amount of fuel (zero included:
the recursive loop is never entered); the dispatcher, cache included, and the
log of the three recording resolvers are left as they were. -/
theorem Resolve_content_path_identity {W : Type} (lib : Lib W) (ns : mpns W) (ctx : Context)
    (p : String) (options : ResolveOpts) (fuel : Nat) (w : W)
    (log : List (Call ResolverKind))
    (hp : HasPrefix p "/dms3fs/" = true) (hwf : lib.ParsePath p = (p, none)) :
    mpns.Resolve lib.instrument ns.instrument ctx p options fuel (w, log)
      = some ((p, none), (ns.instrument, (w, log))) := by
  simp [mpns.Resolve, hp, Lib.instrument, hwf]

theorem Resolve_content_path_identity_witness :
    mpns.Resolve testLib.instrument chainNs.instrument background "/dms3fs/Qmcontent/a"
        (depthOpts 1) 0 (0, [])
      = some (("/dms3fs/Qmcontent/a", none), (chainNs.instrument, (0, []))) :=
  Resolve_content_path_identity testLib chainNs background "/dms3fs/Qmcontent/a"
    (depthOpts 1) 0 0 [] (by decide) (by decide)

/-- C2 (as stated, refuted): on the bare key `Qmn0` the dispatcher answers
`/dms3fs/Qmn0` without a single resolver invocation, whereas on
`/dms3ns/Qmn0` it follows the pointers through three invocations of the
dms3ns resolver. -/
theorem Resolve_bare_key_differs :
    observe (mpns.Resolve testLib.instrument chainNs.instrument background "Qmn0"
        (depthOpts 32) 32 (0, []))
      = some (("/dms3fs/Qmn0", none), []) ∧
    observe (mpns.Resolve testLib.instrument chainNs.instrument background
        ("/dms3ns/" ++ "Qmn0") (depthOpts 32) 32 (0, []))
      = some (("/dms3fs/Qmcontent", none),
          [(ResolverKind.dms3ns, "Qmn0"), (ResolverKind.dms3ns, "Qmn1"),
           (ResolverKind.dms3ns, "Qmn2")]) ∧
    observe (mpns.Resolve testLib.instrument chainNs.instrument background "Qmn0"
        (depthOpts 32) 32 (0, []))
      ≠ observe (mpns.Resolve testLib.instrument chainNs.instrument background
        ("/dms3ns/" ++ "Qmn0") (depthOpts 32) 32 (0, [])) :=
  ⟨by decide, by decide, by decide⟩

/-- C2 (amended): a name with no leading `/` is taken for a content path:
the dispatcher returns what the path parser makes of `/dms3fs/` followed by
the name, for every option value and any amount of fuel, and leaves the
dispatcher, its cache and the log of the recording resolvers as they were. -/
theorem Resolve_bare_key_is_content {W : Type} (lib : Lib W) (ns : mpns W) (ctx : Context)
    (k : String) (options : ResolveOpts) (fuel : Nat) (w : W)
    (log : List (Call ResolverKind))
    (hk : HasPrefix k "/" = false) :
    mpns.Resolve lib.instrument ns.instrument ctx k options fuel (w, log)
      = some (lib.ParsePath ("/dms3fs/" ++ k), (ns.instrument, (w, log))) := by
  have hc : HasPrefix k "/dms3fs/" = false := by
    cases h : HasPrefix k "/dms3fs/" with
    | false => rfl
    | true => rw [HasPrefix_slash_of_content k h] at hk; exact absurd hk (by decide)
  simp [mpns.Resolve, hk, hc, Lib.instrument]

theorem Resolve_bare_key_is_content_witness :
    mpns.Resolve testLib.instrument chainNs.instrument background "Qmn0"
        (depthOpts 32) 32 (0, [])
      = some (testLib.ParsePath ("/dms3fs/" ++ "Qmn0"), (chainNs.instrument, (0, []))) :=
  Resolve_bare_key_is_content testLib chainNs background "Qmn0" (depthOpts 32) 32 0 []
    (by decide)

/-- C3: with a finite depth `d ≥ 1` and at least `d` units of fuel the
recursive `resolve` returns, whatever the resolver (cyclic pointers included),
the name and the prefixes, and the recording double of the resolver has been
invoked at most `d` times during the call. -/
theorem resolve_terminates_within_depth {σ : Type} (ctx : Context) (r : resolver σ)
    (name : String) (options : ResolveOpts) (prefixes : List String) (s : σ) (fuel : Nat)
    (hd : 1 ≤ options.Depth) (hf : options.Depth ≤ fuel) :
    ∃ res s1 log,
      resolve ctx (logged () r) name options prefixes fuel (s, []) = some (res, (s1, log))
        ∧ log.length ≤ options.Depth := by
  obtain ⟨res, s1, log, h, hl⟩ :=
    resolveLoop_logged_bound ctx r options prefixes fuel options.Depth name s [] hd hf
  exact ⟨res, s1, log, h, by simpa using hl⟩

theorem resolve_terminates_within_depth_witness :
    1 ≤ (depthOpts 3).Depth ∧ (depthOpts 3).Depth ≤ 3 ∧
    ∃ res s1 log,
      resolve background (logged () (tableResolver cycle 0)) "a" (depthOpts 3) ["/dms3ns/"] 3
          ((0 : Time), []) = some (res, (s1, log))
        ∧ log.length ≤ (depthOpts 3).Depth :=
  ⟨by decide, by decide,
    resolve_terminates_within_depth background (tableResolver cycle 0) "a" (depthOpts 3)
      ["/dms3ns/"] (0 : Time) 3 (by decide) (by decide)⟩

/-- C4: with a finite depth `d ≥ 1` and at least `d` units of fuel, if each of
the first `d` hops succeeds with a path that does not begin with `/dms3fs/`
and each of the first `d - 1` of those paths begins with one of the prefixes,
then `resolve` returns the path of hop `d` (hop `d - 1` counted from 0)
together with `ErrResolveRecursion`, in the state that hop left. -/
theorem resolve_depth_exhausted {σ : Type} (ctx : Context) (r : resolver σ)
    (name : String) (options : ResolveOpts) (prefixes : List String) (s : σ) (fuel : Nat)
    (hd : 1 ≤ options.Depth) (hf : options.Depth ≤ fuel)
    (hok : ∀ i, i < options.Depth →
      (hopOutput ctx r options prefixes name s i).1.2.2 = none ∧
      HasPrefix (hopOutput ctx r options prefixes name s i).1.1 "/dms3fs/" = false)
    (hmatch : ∀ i, i + 1 < options.Depth →
      ∃ pfx ∈ prefixes, HasPrefix (hopOutput ctx r options prefixes name s i).1.1 pfx = true) :
    resolve ctx r name options prefixes fuel s =
      some (((hopOutput ctx r options prefixes name s (options.Depth - 1)).1.1,
          some Error.ErrResolveRecursion),
        (hopOutput ctx r options prefixes name s (options.Depth - 1)).2) := by
  unfold resolve
  have hfuel : fuel = (fuel - options.Depth) + 1 + (options.Depth - 1) := by omega
  rw [hfuel]
  rw [resolveLoop_after_hops ctx r options prefixes options.Depth name s (options.Depth - 1)
    (fuel - options.Depth + 1)
    (fun i hi => ⟨(hok i (by omega)).1, (hok i (by omega)).2,
      (matchPrefixes_fst _ _ _ _).2 (hmatch i (by omega))⟩)
    (Or.inr (by omega))]
  have hone : depthAfter options.Depth (options.Depth - 1) = 1 := by
    unfold depthAfter
    split <;> omega
  rw [hone]
  have h := hok (options.Depth - 1) (by omega)
  unfold hopOutput at h
  exact resolveLoop_step_limit ctx r options prefixes _ _ _ h.1 h.2

/-- C6: for every depth value, bounded or not: when hop `k` is reached (the
hops before it succeeded with paths that do not begin with `/dms3fs/` and
begin with one of the prefixes, and the depth was not used up) and returns a
path beginning with `/dms3fs/` with no error, `resolve` returns exactly that
path with no error, in the state hop `k` left: no further hop is made. -/
theorem resolve_content_terminal {σ : Type} (ctx : Context) (r : resolver σ)
    (name : String) (options : ResolveOpts) (prefixes : List String) (s : σ) (k fuel : Nat)
    (hf : k < fuel)
    (hdepth : options.Depth = 0 ∨ k < options.Depth)
    (hgo : ∀ i, i < k →
      (hopOutput ctx r options prefixes name s i).1.2.2 = none ∧
      HasPrefix (hopOutput ctx r options prefixes name s i).1.1 "/dms3fs/" = false ∧
      ∃ pfx ∈ prefixes, HasPrefix (hopOutput ctx r options prefixes name s i).1.1 pfx = true)
    (herr : (hopOutput ctx r options prefixes name s k).1.2.2 = none)
    (hfs : HasPrefix (hopOutput ctx r options prefixes name s k).1.1 "/dms3fs/" = true) :
    resolve ctx r name options prefixes fuel s =
      some (((hopOutput ctx r options prefixes name s k).1.1, none),
        (hopOutput ctx r options prefixes name s k).2) := by
  unfold resolve
  have hfuel : fuel = (fuel - k - 1) + 1 + k := by omega
  rw [hfuel]
  rw [resolveLoop_after_hops ctx r options prefixes options.Depth name s k (fuel - k - 1 + 1)
    (fun i hi => ⟨(hgo i hi).1, (hgo i hi).2.1, (matchPrefixes_fst _ _ _ _).2 (hgo i hi).2.2⟩)
    hdepth]
  unfold hopOutput at herr hfs
  exact resolveLoop_step_content ctx r options prefixes _ _ _ _ herr hfs

theorem resolve_depth_exhausted_witness :
    resolve background (tableResolver chain 0) "Qmn0" (depthOpts 2) ["/dms3ns/"] 2 (0 : Time)
      = some (("/dms3ns/Qmn2", some Error.ErrResolveRecursion), 0) :=
  resolve_depth_exhausted background (tableResolver chain 0) "Qmn0" (depthOpts 2)
    ["/dms3ns/"] (0 : Time) 2 (by decide) (by decide) (by decide)
    (fun i hi => by
      have hi2 : i + 1 < 2 := hi
      have h0 : i = 0 := by omega
      subst h0
      decide)

theorem resolve_content_terminal_witness :
    resolve background (tableResolver chain 0) "Qmn0" (depthOpts 0) ["/dms3ns/"] 3 (0 : Time)
      = some (("/dms3fs/Qmcontent", none), 0) :=
  resolve_content_terminal background (tableResolver chain 0) "Qmn0" (depthOpts 0)
    ["/dms3ns/"] (0 : Time) 2 3 (by decide) (by decide) (by decide) (by decide) (by decide)

/-- C5 (as stated, refuted): in the chain `Qmn0 → Qmn1 → Qmn2 → content`,
`Resolve` on `/dms3ns/Qmn0` with depth 1 reports `ErrResolveRecursion` and
returns `/dms3ns/Qmn1`, the path `Qmn0` points to; the path `Qmn1` resolves to
is `/dms3ns/Qmn2`, a different one. -/
theorem Resolve_depth_one_not_second_target :
    (mpns.resolveOnce testLib background "/dms3ns/Qmn0" (depthOpts 1) (chainNs, 0)).1
      = ("/dms3ns/Qmn1", 0, none) ∧
    (mpns.resolveOnce testLib background "/dms3ns/Qmn1" (depthOpts 1) (chainNs, 0)).1
      = ("/dms3ns/Qmn2", 0, none) ∧
    (mpns.resolveOnce testLib background "/dms3ns/Qmn2" (depthOpts 1) (chainNs, 0)).1
      = ("/dms3fs/Qmcontent", 0, none) ∧
    (mpns.Resolve testLib chainNs background "/dms3ns/Qmn0" (depthOpts 1) 32 0).map
        (fun out => out.1)
      = some ("/dms3ns/Qmn1", some Error.ErrResolveRecursion) ∧
    (mpns.Resolve testLib chainNs background "/dms3ns/Qmn0" (depthOpts 1) 32 0).map
        (fun out => out.1.1)
      ≠ some (mpns.resolveOnce testLib background "/dms3ns/Qmn1" (depthOpts 1) (chainNs, 0)).1.1 :=
  ⟨by decide, by decide, by decide, by decide, by decide⟩

/-- C5 (amended): when a single hop from the mutable name `/dms3ns/k0` yields
the mutable-name path `/dms3ns/k1` (the pointer of `k0` names `k1`), `Resolve`
on `/dms3ns/k0` with depth 1 returns that path, the target of `k0`, together
with `ErrResolveRecursion`, after that one hop: what `k1` and the names after
it resolve to plays no part. -/
theorem Resolve_depth_one_returns_first_target {W : Type} (lib : Lib W) (ns : mpns W)
    (ctx : Context) (k0 k1 : String) (options : ResolveOpts) (fuel : Nat) (w : W)
    (hd : options.Depth = 1)
    (h01 : (mpns.resolveOnce lib ctx ("/dms3ns/" ++ k0) options (ns, w)).1
      = ("/dms3ns/" ++ k1, 0, none)) :
    mpns.Resolve lib ns ctx ("/dms3ns/" ++ k0) options (fuel + 1) w
      = some (("/dms3ns/" ++ k1, some Error.ErrResolveRecursion),
          (mpns.resolveOnce lib ctx ("/dms3ns/" ++ k0) options (ns, w)).2) := by
  have hs : HasPrefix ("/dms3ns/" ++ k0) "/" = true :=
    (HasPrefix_iff _ _).2 ⟨"dms3ns/" ++ k0, by rw [← String.append_assoc]; rfl⟩
  have hlim := resolveLoop_step_limit ctx (mpns.resolveOnce lib) options ["/dms3ns/"] fuel
    ("/dms3ns/" ++ k0) (ns, w) (by rw [h01]) (by rw [h01]; exact not_content_of_dms3ns k1)
  rw [h01] at hlim
  simp only [mpns.Resolve, not_content_of_dms3ns, hs, resolve, hd]
  simpa using hlim

theorem Resolve_depth_one_returns_first_target_witness :
    mpns.Resolve testLib chainNs background ("/dms3ns/" ++ "Qmn0") (depthOpts 1) (0 + 1) 0
      = some (("/dms3ns/" ++ "Qmn1", some Error.ErrResolveRecursion),
          (mpns.resolveOnce testLib background ("/dms3ns/" ++ "Qmn0") (depthOpts 1)
            (chainNs, 0)).2) :=
  Resolve_depth_one_returns_first_target testLib chainNs background "Qmn0" "Qmn1"
    (depthOpts 1) 0 0 (by decide) (by decide)

theorem cacheGet_instrument {W : Type} (ns : mpns W) (now : Time) (key : String) :
    ns.instrument.cacheGet now key
      = ((ns.cacheGet now key).1, (ns.cacheGet now key).2.instrument) := by
  unfold mpns.cacheGet
  cases hc : ns.cache with
  | none => simp [mpns.instrument, hc]
  | some c =>
    cases hg : c.Get key with
    | none => simp [mpns.instrument, hc, hg]
    | some e =>
      by_cases hl : now < e.eol
      · simp [mpns.instrument, hc, hg, hl]
      · simp [mpns.instrument, hc, hg, hl]

theorem cacheSet_instrument {W : Type} (ns : mpns W) (now : Time) (key : String) (val : Path)
    (ttl : Duration) :
    ns.instrument.cacheSet now key val ttl = (ns.cacheSet now key val ttl).instrument := by
  unfold mpns.cacheSet
  cases hc : ns.cache with
  | none => simp [mpns.instrument, hc]
  | some c =>
    by_cases hl : ttl ≤ 0
    · simp [mpns.instrument, hc, hl]
    · simp [mpns.instrument, hc, hl]

theorem cacheGet_hit_state {W : Type} (ns : mpns W) (now : Time) (key : String)
    (h : (ns.cacheGet now key).1.2 = true) : (ns.cacheGet now key).2 = ns := by
  unfold mpns.cacheGet at h ⊢
  cases hc : ns.cache with
  | none => simp [hc] at h
  | some c =>
    cases hg : c.Get key with
    | none => simp [hc, hg] at h
    | some e =>
      by_cases hl : now < e.eol
      · simp [hc, hg, hl]
      · simp [hc, hg, hl] at h

theorem lookup_filter_ne (l : List (String × cacheEntry)) (key k : String) :
    (l.filter (fun kv => kv.1 != key)).lookup k = if k = key then none else l.lookup k := by
  induction l with
  | nil => simp
  | cons a l ih =>
    obtain ⟨ak, av⟩ := a
    by_cases hak : ak = key
    · subst hak
      by_cases hk : k = ak
      · subst hk
        simp [List.filter_cons, ih]
      · have hb : (k == ak) = false := by simp [hk]
        simp [List.filter_cons, ih, hk, List.lookup_cons, hb]
    · have hne : (ak != key) = true := by simp [hak]
      by_cases hk : k = ak
      · subst hk
        simp [List.filter_cons, hne, hak, List.lookup_cons]
      · have hb : (k == ak) = false := by simp [hk]
        simp [List.filter_cons, hne, List.lookup_cons, hb, ih]

/-- A lookup changes no answer of the cache: after `cacheGet` at time `now`,
every lookup at `now` or later answers as it would have on the cache before. -/
theorem cacheGet_after_lookup {W : Type} (ns : mpns W) (now t : Time) (key k : String)
    (ht : now ≤ t) :
    ((ns.cacheGet now key).2.cacheGet t k).1 = (ns.cacheGet t k).1 := by
  cases hc : ns.cache with
  | none => simp [mpns.cacheGet, hc]
  | some c =>
    cases hg : c.Get key with
    | none => simp [mpns.cacheGet, hc, hg]
    | some e =>
      by_cases hl : now < e.eol
      · simp [mpns.cacheGet, hc, hg, hl]
      · have hst : ¬ t < e.eol := not_lt.2 (le_trans (not_lt.1 hl) ht)
        have h1 : ns.cacheGet now key
            = (("", false), { ns with cache := some (c.Remove key) }) := by
          simp [mpns.cacheGet, hc, hg, hl]
        have hg1 : c.entries.lookup key = some e := hg
        rw [h1]
        by_cases hk : k = key
        · subst hk
          simp [mpns.cacheGet, hc, Cache.Get, Cache.Remove, lookup_filter_ne, hg1, hst]
        · simp [mpns.cacheGet, hc, Cache.Get, Cache.Remove, lookup_filter_ne, hk]
          cases c.entries.lookup k with
          | none => rfl
          | some e1 => by_cases h2 : t < e1.eol <;> simp [h2]

theorem cacheGet_entries_subset {W : Type} (ns : mpns W) (now : Time) (key : String) :
    ∀ kv ∈ (ns.cacheGet now key).2.entries, kv ∈ ns.entries := by
  intro kv
  cases hc : ns.cache with
  | none => simp [mpns.cacheGet, mpns.entries, hc]
  | some c =>
    cases hg : c.Get key with
    | none => simp [mpns.cacheGet, mpns.entries, hc, hg]
    | some e =>
      by_cases hl : now < e.eol
      · simp [mpns.cacheGet, mpns.entries, hc, hg, hl]
      · simp only [mpns.cacheGet, mpns.entries, hc, hg, hl, Cache.Remove]
        intro h
        exact (List.mem_filter.1 h).1

theorem cacheGet_no_entry {W : Type} (ns : mpns W) (now : Time) (key : String)
    (h : ns.entries.lookup key = none) : (ns.cacheGet now key).2 = ns := by
  cases hc : ns.cache with
  | none => simp [mpns.cacheGet, hc]
  | some c =>
    have hg : c.Get key = none := by simpa [mpns.entries, hc, Cache.Get] using h
    simp [mpns.cacheGet, hc, hg]

theorem selectResolver_instrument {W : Type} (lib : Lib W) (ns : mpns W) (key : String) :
    ∃ kind : ResolverKind,
      ns.instrument.selectResolver lib.instrument key = logged kind (ns.selectResolver lib key) ∧
      (lib.FromB58String key = none → kind = ResolverKind.dms3ns) ∧
      (lib.FromB58String key ≠ none → lib.IsDomain key = true → kind = ResolverKind.dns) ∧
      (lib.FromB58String key ≠ none → lib.IsDomain key = false →
        kind = ResolverKind.proquint) := by
  by_cases h1 : lib.FromB58String key = none
  · exact ⟨ResolverKind.dms3ns,
      by simp [mpns.selectResolver, mpns.instrument, Lib.instrument, h1],
      fun _ => rfl, fun h => absurd h1 h, fun h => absurd h1 h⟩
  · by_cases h2 : lib.IsDomain key = true
    · exact ⟨ResolverKind.dns,
        by simp [mpns.selectResolver, mpns.instrument, Lib.instrument, h1, h2],
        fun h => absurd h h1, fun _ _ => rfl, fun _ h => by rw [h2] at h; cases h⟩
    · exact ⟨ResolverKind.proquint,
        by simp [mpns.selectResolver, mpns.instrument, Lib.instrument, h1, h2],
        fun h => absurd h h1, fun _ h => absurd h h2, fun _ _ => rfl⟩

theorem resolveOnce_miss_log {W : Type} (lib : Lib W) (ns : mpns W) (ctx : Context)
    (name : String) (options : ResolveOpts) (w : W) (log : List (Call ResolverKind))
    (kind : ResolverKind)
    (hsel : ns.instrument.selectResolver lib.instrument (keyOf name)
      = logged kind (ns.selectResolver lib (keyOf name)))
    (hmiss : (ns.cacheGet (lib.Now w) (keyOf name)).1.2 = false) :
    (mpns.resolveOnce lib.instrument ctx name options (ns.instrument, (w, log))).2.2.2
      = log ++ [(kind, keyOf name)] := by
  rw [resolveOnce_eq]
  have hnow : lib.instrument.Now (w, log) = lib.Now w := rfl
  simp only [hnow, cacheGet_instrument, hmiss, hsel]
  by_cases herr : (ns.selectResolver lib (keyOf name) ctx (keyOf name) options w).1.2.2 = none
  · simp [logged, herr]
  · simp [logged, herr]

/-- C7: on a cache miss, for every name, exactly one invocation is made of the
three concrete resolvers, with the key as its argument: of the dms3ns
resolver whenever the key decodes as a base58 multihash (whether or not it is
also a domain), of the DNS resolver when it does not decode and is a domain,
of the proquint resolver when it is neither. -/
theorem resolveOnce_miss_invokes_one {W : Type} (lib : Lib W) (ns : mpns W) (ctx : Context)
    (name : String) (options : ResolveOpts) (w : W) (log : List (Call ResolverKind))
    (hmiss : (ns.cacheGet (lib.Now w) (keyOf name)).1.2 = false) :
    ∃ kind : ResolverKind,
      (mpns.resolveOnce lib.instrument ctx name options (ns.instrument, (w, log))).2.2.2
        = log ++ [(kind, keyOf name)] ∧
      (lib.FromB58String (keyOf name) = none → kind = ResolverKind.dms3ns) ∧
      (lib.FromB58String (keyOf name) ≠ none → lib.IsDomain (keyOf name) = true →
        kind = ResolverKind.dns) ∧
      (lib.FromB58String (keyOf name) ≠ none → lib.IsDomain (keyOf name) = false →
        kind = ResolverKind.proquint) := by
  obtain ⟨kind, hsel, h1, h2, h3⟩ := selectResolver_instrument lib ns (keyOf name)
  exact ⟨kind, resolveOnce_miss_log lib ns ctx name options w log kind hsel hmiss, h1, h2, h3⟩

theorem resolveOnce_miss_invokes_one_witness :
    (mpns.resolveOnce testLib.instrument background "/dms3ns/Qm.example.com" (depthOpts 1)
        (chainNs.instrument, (0, []))).2.2.2
      = [(ResolverKind.dms3ns, "Qm.example.com")] ∧
    testLib.IsDomain "Qm.example.com" = true := by
  obtain ⟨kind, hlog, h1, _, _⟩ :=
    resolveOnce_miss_invokes_one testLib chainNs background "/dms3ns/Qm.example.com"
      (depthOpts 1) 0 [] (by decide)
  have hk : kind = ResolverKind.dms3ns := h1 (by decide)
  subst hk
  exact ⟨hlog, by decide⟩

theorem rejoin_short {W : Type} (lib : Lib W) (segments : List String) (p : Path)
    (h : segments.length ≤ 3) : rejoin lib segments p = (p, none) := by
  have h3 : ¬ segments.length > 3 := by omega
  simp [rejoin, h3]

theorem rejoin_long {W : Type} (lib : Lib W) (segments : List String) (p : Path)
    (h : segments.length > 3) :
    rejoin lib segments p = lib.ParsePath (TrimRight p "/" ++ "/" ++ segments.getD 3 "") := by
  simp [rejoin, h, FromSegments, String.intercalate, String.intercalate.go,
    String.append_assoc]

/-- C8: when the lookup of the key of the name is a hit with path `p`,
`mpns.resolveOnce` leaves the dispatcher (its cache included), the world and
the log of the three recording resolvers exactly as they were, and its result
is made from `p`: `p` itself, with no error, when the name has no sub-path,
and otherwise what the path parser makes of `p` without its trailing slashes,
a slash and the sub-path. -/
theorem resolveOnce_cache_hit {W : Type} (lib : Lib W) (ns : mpns W) (ctx : Context)
    (name : String) (options : ResolveOpts) (w : W) (log : List (Call ResolverKind))
    (p : Path)
    (hhit : (ns.cacheGet (lib.Now w) (keyOf name)).1 = (p, true)) :
    (mpns.resolveOnce lib.instrument ctx name options (ns.instrument, (w, log))).2
        = (ns.instrument, (w, log)) ∧
    ((segmentsOf name).length ≤ 3 →
      (mpns.resolveOnce lib.instrument ctx name options (ns.instrument, (w, log))).1
        = (p, 0, none)) ∧
    ((segmentsOf name).length > 3 →
      (mpns.resolveOnce lib.instrument ctx name options (ns.instrument, (w, log))).1
        = ((lib.ParsePath (TrimRight p "/" ++ "/" ++ (segmentsOf name).getD 3 "")).1, 0,
           (lib.ParsePath (TrimRight p "/" ++ "/" ++ (segmentsOf name).getD 3 "")).2)) := by
  have hok : (ns.cacheGet (lib.Now w) (keyOf name)).1.2 = true := by rw [hhit]
  have hp : (ns.cacheGet (lib.Now w) (keyOf name)).1.1 = p := by rw [hhit]
  have hst := cacheGet_hit_state ns (lib.Now w) (keyOf name) hok
  have hnow : lib.instrument.Now (w, log) = lib.Now w := rfl
  rw [resolveOnce_eq]
  simp only [hnow, cacheGet_instrument, hok, hp, hst]
  refine ⟨by simp, fun h => ?_, fun h => ?_⟩
  · rw [rejoin_short lib.instrument _ p h]
    simp
  · rw [rejoin_long lib.instrument _ p h]
    simp [Lib.instrument]

theorem resolveOnce_cache_hit_witness :
    (mpns.resolveOnce testLib.instrument background "/dms3ns/Qmn0/docs" (depthOpts 1)
        (warmNs.instrument, (0, []))).2 = (warmNs.instrument, (0, [])) ∧
    (mpns.resolveOnce testLib.instrument background "/dms3ns/Qmn0" (depthOpts 1)
        (warmNs.instrument, (0, []))).1 = ("/dms3fs/Qmcached", 0, none) ∧
    (mpns.resolveOnce testLib.instrument background "/dms3ns/Qmn0/docs" (depthOpts 1)
        (warmNs.instrument, (0, []))).1 = ("/dms3fs/Qmcached/docs", 0, none) :=
  ⟨(resolveOnce_cache_hit testLib warmNs background "/dms3ns/Qmn0/docs" (depthOpts 1) 0 []
      "/dms3fs/Qmcached" (by decide)).1,
   (resolveOnce_cache_hit testLib warmNs background "/dms3ns/Qmn0" (depthOpts 1) 0 []
      "/dms3fs/Qmcached" (by decide)).2.1 (by decide),
   (resolveOnce_cache_hit testLib warmNs background "/dms3ns/Qmn0/docs" (depthOpts 1) 0 []
      "/dms3fs/Qmcached" (by decide)).2.2 (by decide)⟩

theorem TrimRight_slash_last (p : String) : (TrimRight p "/").data.getLast? ≠ some '/' := by
  unfold TrimRight
  simp only [List.getLast?_reverse]
  intro h
  have hq := List.head?_dropWhile_not (fun c => "/".data.contains c) p.data.reverse
  rw [h] at hq
  simp at hq

theorem TrimRight_slash_decomp (p : String) :
    ∃ n : Nat, p = TrimRight p "/" ++ String.mk (List.replicate n '/') := by
  refine ⟨(p.data.reverse.takeWhile (fun c => "/".data.contains c)).length, ?_⟩
  apply String.ext
  unfold TrimRight
  simp only [String.data_append]
  have hall : (p.data.reverse.takeWhile (fun c => "/".data.contains c)).reverse
      = List.replicate (p.data.reverse.takeWhile (fun c => "/".data.contains c)).length '/' := by
    rw [List.eq_replicate_iff]
    refine ⟨by simp, fun c hc => ?_⟩
    have := List.mem_takeWhile_imp (List.mem_reverse.1 hc)
    simpa using this
  rw [← hall, ← List.reverse_append, List.takeWhile_append_dropWhile, List.reverse_reverse]

theorem keyOf_key (k : String) (hk : '/' ∉ k.data) : keyOf ("/dms3ns/" ++ k) = k := by
  simp [keyOf, segmentsOf_key k hk]

theorem keyOf_key_sub (k sub : String) (hk : '/' ∉ k.data) :
    keyOf ("/dms3ns/" ++ k ++ "/" ++ sub) = k := by
  simp [keyOf, segmentsOf_key_sub k sub hk]

/-- The path part and error part of a single hop, in terms of the path `p`
obtained for the key, from the cache or from the selected resolver. -/
theorem resolveOnce_obtained {W : Type} (lib : Lib W) (ns : mpns W) (ctx : Context)
    (name : String) (options : ResolveOpts) (w : W) (p : Path)
    (hp : (ns.cacheGet (lib.Now w) (keyOf name)).1 = (p, true) ∨
      ((ns.cacheGet (lib.Now w) (keyOf name)).1.2 = false ∧
        ∃ ttl, (ns.selectResolver lib (keyOf name) ctx (keyOf name) options w).1
          = (p, ttl, none))) :
    (mpns.resolveOnce lib ctx name options (ns, w)).1
      = ((rejoin lib (segmentsOf name) p).1, 0, (rejoin lib (segmentsOf name) p).2) := by
  rw [resolveOnce_eq]
  rcases hp with hhit | ⟨hmiss, ttl, hres⟩
  · have hok : (ns.cacheGet (lib.Now w) (keyOf name)).1.2 = true := by rw [hhit]
    have hp1 : (ns.cacheGet (lib.Now w) (keyOf name)).1.1 = p := by rw [hhit]
    simp [hok, hp1]
  · have he : (ns.selectResolver lib (keyOf name) ctx (keyOf name) options w).1.2.2 = none := by
      rw [hres]
    have hp1 : (ns.selectResolver lib (keyOf name) ctx (keyOf name) options w).1.1 = p := by
      rw [hres]
    simp [hmiss, he, hp1]

theorem Sub_exact (t u : Time) (h1 : minDuration ≤ t - u) (h2 : t - u ≤ maxDuration) :
    Sub t u = t - u := by
  unfold Sub
  rw [if_neg (not_lt.2 h1), if_neg (not_lt.2 h2)]

theorem Sub_pos (t u : Time) (h : u < t) : 0 < Sub t u := by
  have hd : (0 : Int) < t - u := sub_pos.2 h
  unfold Sub
  split
  · rename_i h1
    have h0 : minDuration < 0 := by decide
    exact absurd (lt_trans h1 h0) (not_lt.2 (le_of_lt hd))
  · split
    · decide
    · exact hd

theorem PublishWithEOL_ok {W : Type} (lib : Lib W) (ns : mpns W) (ctx : Context)
    (key : PrivKey) (value : Path) (eol : Time) (w w1 : W) (id : PeerID)
    (hid : lib.IDFromPrivateKey key = (id, none))
    (hpub : ns.dms3nsPublisher ctx key value eol w = (none, w1)) :
    mpns.PublishWithEOL lib ns ctx key value eol w
      = (none, (ns.cacheSet (lib.Now w1) (lib.IDB58Encode id) value
          (min DefaultResolverCacheTTL (Sub eol (lib.Now w1))), w1)) := by
  have hmin : (if Sub eol (lib.Now w1) < DefaultResolverCacheTTL then Sub eol (lib.Now w1)
      else DefaultResolverCacheTTL) = min DefaultResolverCacheTTL (Sub eol (lib.Now w1)) := by
    by_cases h : Sub eol (lib.Now w1) < DefaultResolverCacheTTL
    · rw [if_pos h, min_eq_right (le_of_lt h)]
    · rw [if_neg h, min_eq_left (not_lt.1 h)]
  simp only [mpns.PublishWithEOL, hid, hpub, hmin]
  simp

theorem cacheSet_pos {W : Type} (ns : mpns W) (now : Time) (key : String) (val : Path)
    (ttl : Duration) (c : Cache) (hc : ns.cache = some c) (ht : 0 < ttl) :
    ns.cacheSet now key val ttl
      = { ns with cache := some (c.Add key { val := val, eol := now + ttl }) } := by
  simp [mpns.cacheSet, hc, not_le.2 ht]

theorem Cache_Add_entries (c : Cache) (key : String) (e : cacheEntry) (hs : 0 < c.size) :
    (c.Add key e).entries
      = (key, e) :: (c.entries.filter (fun kv => kv.1 != key)).take (c.size - 1) := by
  obtain ⟨n, hn⟩ : ∃ n, c.size = n + 1 := ⟨c.size - 1, by omega⟩
  simp [Cache.Add, hn]

theorem Cache_Add_lookup (c : Cache) (key : String) (e : cacheEntry) (hs : 0 < c.size) :
    (c.Add key e).entries.lookup key = some e := by
  rw [Cache_Add_entries c key e hs]
  simp [List.lookup_cons]

theorem Cache_Add_one (c : Cache) (key : String) (e : cacheEntry) (hs : 0 < c.size) :
    (c.Add key e).entries.filter (fun kv => kv.1 == key) = [(key, e)] := by
  rw [Cache_Add_entries c key e hs]
  have hrest : ((c.entries.filter (fun kv => kv.1 != key)).take (c.size - 1)).filter
      (fun kv => kv.1 == key) = [] := by
    rw [List.filter_eq_nil_iff]
    intro kv hkv
    have hm := List.mem_of_mem_take hkv
    have := (List.mem_filter.1 hm).2
    simpa using this
  simp [List.filter_cons, hrest]

theorem cacheGet_hit_of_lookup {W : Type} (ns : mpns W) (now : Time) (key : String)
    (c : Cache) (e : cacheEntry) (hc : ns.cache = some c)
    (hl : c.entries.lookup key = some e) (hlive : now < e.eol) :
    ns.cacheGet now key = ((e.val, true), ns) := by
  have hg : c.Get key = some e := hl
  simp [mpns.cacheGet, hc, hg, hlive]

theorem resolveOnce_hit_key {W : Type} (lib : Lib W) (ns : mpns W) (ctx : Context)
    (k : String) (options : ResolveOpts) (w : W) (p : Path) (hk : '/' ∉ k.data)
    (hhit : ns.cacheGet (lib.Now w) k = ((p, true), ns)) :
    mpns.resolveOnce lib ctx ("/dms3ns/" ++ k) options (ns, w) = ((p, 0, none), (ns, w)) := by
  rw [resolveOnce_eq, keyOf_key k hk, segmentsOf_key k hk, hhit]
  simp [rejoin_short lib ["", "dms3ns", k] p (by simp)]

theorem Resolve_of_content_hop {W : Type} (lib : Lib W) (ns : mpns W) (ctx : Context)
    (k : String) (options : ResolveOpts) (fuel : Nat) (w : W) (p : Path)
    (hp : HasPrefix p "/dms3fs/" = true)
    (hhop : mpns.resolveOnce lib ctx ("/dms3ns/" ++ k) options (ns, w)
      = ((p, 0, none), (ns, w))) :
    mpns.Resolve lib ns ctx ("/dms3ns/" ++ k) options (fuel + 1) w
      = some ((p, none), (ns, w)) := by
  have hs : HasPrefix ("/dms3ns/" ++ k) "/" = true :=
    (HasPrefix_iff _ _).2 ⟨"dms3ns/" ++ k, by rw [← String.append_assoc]; rfl⟩
  have hstep := resolveLoop_step_content ctx (mpns.resolveOnce lib) options ["/dms3ns/"] fuel
    options.Depth ("/dms3ns/" ++ k) (ns, w) (by rw [hhop]) (by rw [hhop]; exact hp)
  rw [hhop] at hstep
  simp only [mpns.Resolve, not_content_of_dms3ns, hs, resolve]
  simpa using hstep

/-- C12: publish round trip. After a successful `mpns.PublishWithEOL` of a
content path `v` (one beginning with `/dms3fs/`) on a dispatcher whose cache
is enabled, with an expiry that is still ahead when the publisher returns (as
with `now + 1h`), `mpns.Resolve` on `/dms3ns/` followed by the base58 string
of the publisher's identity, made at once, returns `v` with no error for every
option value; it is answered by the cache: the dispatcher and the world are
left as they were and the recording resolvers, the dms3ns one included, log
no invocation. -/
theorem publish_then_resolve_from_cache {W : Type} (lib : Lib W) (ns : mpns W)
    (ctx : Context) (key : PrivKey) (v : Path) (eol : Time) (w w1 : W) (id : PeerID)
    (c : Cache) (options : ResolveOpts) (fuel : Nat) (log : List (Call ResolverKind))
    (hid : lib.IDFromPrivateKey key = (id, none))
    (hpub : ns.dms3nsPublisher ctx key v eol w = (none, w1))
    (hcache : ns.cache = some c) (hsize : 0 < c.size)
    (hv : HasPrefix v "/dms3fs/" = true)
    (hb58 : '/' ∉ (lib.IDB58Encode id).data)
    (hlive : lib.Now w1 < eol) :
    (mpns.PublishWithEOL lib ns ctx key v eol w).1 = none ∧
    (mpns.PublishWithEOL lib ns ctx key v eol w).2.2 = w1 ∧
    mpns.Resolve lib.instrument (mpns.PublishWithEOL lib ns ctx key v eol w).2.1.instrument ctx
        ("/dms3ns/" ++ lib.IDB58Encode id) options (fuel + 1) (w1, log)
      = some ((v, none),
          ((mpns.PublishWithEOL lib ns ctx key v eol w).2.1.instrument, (w1, log))) := by
  have hpos : 0 < min DefaultResolverCacheTTL (Sub eol (lib.Now w1)) :=
    lt_min (by decide) (Sub_pos eol (lib.Now w1) hlive)
  rw [PublishWithEOL_ok lib ns ctx key v eol w w1 id hid hpub]
  refine ⟨rfl, rfl, ?_⟩
  apply Resolve_of_content_hop lib.instrument _ ctx _ options fuel (w1, log) v hv
  apply resolveOnce_hit_key lib.instrument _ ctx _ options (w1, log) v hb58
  have hnow : lib.instrument.Now (w1, log) = lib.Now w1 := rfl
  rw [hnow, cacheGet_instrument]
  have hget := cacheGet_hit_of_lookup
    (ns.cacheSet (lib.Now w1) (lib.IDB58Encode id) v
      (min DefaultResolverCacheTTL (Sub eol (lib.Now w1))))
    (lib.Now w1) (lib.IDB58Encode id)
    (c.Add (lib.IDB58Encode id)
      { val := v, eol := lib.Now w1 + min DefaultResolverCacheTTL (Sub eol (lib.Now w1)) })
    { val := v, eol := lib.Now w1 + min DefaultResolverCacheTTL (Sub eol (lib.Now w1)) }
    (by rw [cacheSet_pos ns _ _ _ _ c hcache hpos])
    (Cache_Add_lookup c _ _ hsize)
    (lt_add_of_pos_right _ hpos)
  rw [hget]

theorem publish_then_resolve_from_cache_witness :
    (mpns.PublishWithEOL testLib chainNs background testKey "/dms3fs/Qmvalue"
        (1000 + hour) 1000).1 = none ∧
    observe (mpns.Resolve testLib.instrument
        (mpns.PublishWithEOL testLib chainNs background testKey "/dms3fs/Qmvalue"
          (1000 + hour) 1000).2.1.instrument background
        ("/dms3ns/" ++ testLib.IDB58Encode "QmPublisher") (depthOpts 32) (0 + 1) (1000, []))
      = some (("/dms3fs/Qmvalue", none), []) :=
  ⟨(publish_then_resolve_from_cache testLib chainNs background testKey "/dms3fs/Qmvalue"
      (1000 + hour) 1000 1000 "QmPublisher" { size := 4, entries := [] } (depthOpts 32) 0 []
      (by decide) (by decide) (by decide) (by decide) (by decide) (by decide) (by decide)).1,
   congrArg observe
    (publish_then_resolve_from_cache testLib chainNs background testKey "/dms3fs/Qmvalue"
      (1000 + hour) 1000 1000 "QmPublisher" { size := 4, entries := [] } (depthOpts 32) 0 []
      (by decide) (by decide) (by decide) (by decide) (by decide) (by decide) (by decide)).2.2⟩

theorem resolveLoop_context_passthrough {σ : Type} (ctx ctx1 : Context) (r : resolver σ)
    (options : ResolveOpts) (prefixes : List String) :
    ∀ (fuel depth : Nat) (name : String) (s : σ),
      resolveLoop ctx r options prefixes fuel depth name s
        = resolveLoop ctx1 (fun _ => r ctx) options prefixes fuel depth name s := by
  intro fuel
  induction fuel with
  | zero => intro depth name s; rfl
  | succ fuel ih =>
    intro depth name s
    simp only [resolveLoop, ih]

/-- C13 (as stated, refuted): under a context that is already cancelled, the
first hop from `Qmn0` completes with the recursable path `/dms3ns/Qmn1` and
depth remains, yet `resolve` returns no cancellation error: it invokes the
resolver for the next hops (`Qmn1`, then `Qmn2`) and returns the content path
with no error. -/
theorem resolve_cancelled_still_hops :
    cancelledCtx.cancelled = true ∧
    (hopOutput cancelledCtx (tableResolver chain 0) (depthOpts 32) ["/dms3ns/"] "Qmn0"
        (0 : Time) 0).1 = ("/dms3ns/Qmn1", 0, none) ∧
    resolve cancelledCtx (logged () (tableResolver chain 0)) "Qmn0" (depthOpts 32)
        ["/dms3ns/"] 32 ((0 : Time), [])
      = some (("/dms3fs/Qmcontent", none),
          (0, [((), "Qmn0"), ((), "Qmn1"), ((), "Qmn2")])) :=
  ⟨by decide, by decide, by decide⟩

/-- C13 (amended): `resolve` makes no cancellation check of its own; it only
hands the caller's context to the resolver. Under a cancelled context, when a
hop has completed with no error and a path that does not begin with
`/dms3fs/` and begins with one of the prefixes, and the depth is not used up:
the call goes on as the loop does from the next name with the same context;
when the resolver, invoked for that next hop, returns an error (as one that
honours the context does), `resolve` returns that error with the empty path
in the state the next hop left; and the whole call equals the call made under
any other context with a resolver that is always handed the cancelled one. -/
theorem resolve_goes_on_when_cancelled {σ : Type} (r : resolver σ) (name : String)
    (options : ResolveOpts) (prefixes : List String) (s : σ) (fuel : Nat)
    (herr : (r cancelledCtx name options s).1.2.2 = none)
    (hfs : HasPrefix (r cancelledCtx name options s).1.1 "/dms3fs/" = false)
    (hm : ∃ pfx ∈ prefixes, HasPrefix (r cancelledCtx name options s).1.1 pfx = true)
    (hd : options.Depth ≠ 1) :
    resolve cancelledCtx r name options prefixes (fuel + 1) s
      = resolveLoop cancelledCtx r options prefixes fuel
          (if options.Depth > 1 then options.Depth - 1 else options.Depth)
          (matchPrefixes prefixes (r cancelledCtx name options s).1.1 name prefixes).2
          (r cancelledCtx name options s).2 ∧
    (∀ e : Error,
      (r cancelledCtx
          (matchPrefixes prefixes (r cancelledCtx name options s).1.1 name prefixes).2
          options (r cancelledCtx name options s).2).1.2.2 = some e →
      resolve cancelledCtx r name options prefixes (fuel + 2) s
        = some (("", some e),
            (r cancelledCtx
              (matchPrefixes prefixes (r cancelledCtx name options s).1.1 name prefixes).2
              options (r cancelledCtx name options s).2).2)) ∧
    (∀ ctx1 : Context,
      resolve cancelledCtx r name options prefixes fuel s
        = resolve ctx1 (fun _ => r cancelledCtx) name options prefixes fuel s) := by
  have hgo : ∀ f : Nat, resolve cancelledCtx r name options prefixes (f + 1) s
      = resolveLoop cancelledCtx r options prefixes f
          (if options.Depth > 1 then options.Depth - 1 else options.Depth)
          (matchPrefixes prefixes (r cancelledCtx name options s).1.1 name prefixes).2
          (r cancelledCtx name options s).2 := fun f =>
    resolveLoop_step_go cancelledCtx r options prefixes f options.Depth name s herr hfs hd
      ((matchPrefixes_fst _ _ _ _).2 hm)
  refine ⟨hgo fuel, fun e he => ?_, fun ctx1 => ?_⟩
  · rw [hgo (fuel + 1)]
    rcases hr : r cancelledCtx
        (matchPrefixes prefixes (r cancelledCtx name options s).1.1 name prefixes).2
        options (r cancelledCtx name options s).2 with ⟨⟨p, ttl, err⟩, s2⟩
    rw [hr] at he
    simp only at he
    subst he
    simp [resolveLoop, hr]
  · exact resolveLoop_context_passthrough cancelledCtx ctx1 r options prefixes fuel
      options.Depth name s

theorem resolve_goes_on_when_cancelled_witness :
    resolve cancelledCtx (tableResolver chain 0) "Qmn0" (depthOpts 0) ["/dms3ns/"] (5 + 1)
        (0 : Time)
      = resolveLoop cancelledCtx (tableResolver chain 0) (depthOpts 0) ["/dms3ns/"] 5 0
          "Qmn1" 0 :=
  (resolve_goes_on_when_cancelled (tableResolver chain 0) "Qmn0" (depthOpts 0) ["/dms3ns/"]
    (0 : Time) 5 (by decide) (by decide) (by decide) (by decide)).1

theorem cacheGet_stale {W : Type} (ns : mpns W) (now : Time) (key : String) (c : Cache)
    (e : cacheEntry) (hc : ns.cache = some c) (hg : c.Get key = some e)
    (hmiss : (ns.cacheGet now key).1.2 = false) :
    (ns.cacheGet now key).2.cache = some (c.Remove key) := by
  by_cases hl : now < e.eol
  · simp [mpns.cacheGet, hc, hg, hl] at hmiss
  · simp [mpns.cacheGet, hc, hg, hl]

theorem cacheSet_nonpos {W : Type} (ns : mpns W) (now : Time) (key : String) (val : Path)
    (ttl : Duration) (ht : ttl ≤ 0) : ns.cacheSet now key val ttl = ns := by
  cases hc : ns.cache with
  | none => simp [mpns.cacheSet, hc]
  | some c => simp [mpns.cacheSet, hc, ht]

theorem cacheSet_disabled {W : Type} (ns : mpns W) (now : Time) (key : String) (val : Path)
    (ttl : Duration) (hc : ns.cache = none) : ns.cacheSet now key val ttl = ns := by
  simp [mpns.cacheSet, hc]

/-- C9 (as stated, refuted): the cache holds an expired entry under
`Qmunknown`; at time 10 the lookup misses, the dms3ns resolver fails, and
`mpns.resolveOnce` returns `ErrResolveFailed` with a cache that is not the
cache it started from: the expired entry is gone. -/
theorem resolveOnce_resolver_error_changes_cache :
    (staleNs.cacheGet 10 "Qmunknown").1.2 = false ∧
    (staleNs.selectResolver testLib "Qmunknown" background "Qmunknown" (depthOpts 1) 10).1.2.2
      = some (Error.other "routing: not found") ∧
    (mpns.resolveOnce testLib background "/dms3ns/Qmunknown" (depthOpts 1) (staleNs, 10)).1
      = ("", 0, some Error.ErrResolveFailed) ∧
    staleNs.cache
      = some { size := 4, entries := [("Qmunknown", { val := "/dms3fs/Qmold", eol := 5 })] } ∧
    (mpns.resolveOnce testLib background "/dms3ns/Qmunknown" (depthOpts 1) (staleNs, 10)).2.1.cache
      = some { size := 4, entries := [] } ∧
    (mpns.resolveOnce testLib background "/dms3ns/Qmunknown" (depthOpts 1) (staleNs, 10)).2.1.cache
      ≠ staleNs.cache :=
  ⟨by decide, by decide, by decide, by decide, by decide, by decide⟩

/-- C9 (amended): on a cache miss, when the selected concrete resolver returns
an error (whichever), `mpns.resolveOnce` returns the empty path, a zero
lifetime and `ErrResolveFailed`, and writes no cache entry: the dispatcher is
left as the lookup left it, every entry it holds was there before, every
lookup made now or later is answered as before the call, the cache is the
very same when it held nothing under the key, and it is the cache without
the entry of the key when the lookup found an expired entry there. -/
theorem resolveOnce_resolver_error {W : Type} (lib : Lib W) (ns : mpns W) (ctx : Context)
    (name : String) (options : ResolveOpts) (w : W) (e : Error)
    (hmiss : (ns.cacheGet (lib.Now w) (keyOf name)).1.2 = false)
    (herr : (ns.selectResolver lib (keyOf name) ctx (keyOf name) options w).1.2.2 = some e) :
    (mpns.resolveOnce lib ctx name options (ns, w)).1 = ("", 0, some Error.ErrResolveFailed) ∧
    (mpns.resolveOnce lib ctx name options (ns, w)).2.1
      = (ns.cacheGet (lib.Now w) (keyOf name)).2 ∧
    (∀ kv ∈ (mpns.resolveOnce lib ctx name options (ns, w)).2.1.entries, kv ∈ ns.entries) ∧
    (∀ (k : String) (t : Time), lib.Now w ≤ t →
      ((mpns.resolveOnce lib ctx name options (ns, w)).2.1.cacheGet t k).1
        = (ns.cacheGet t k).1) ∧
    (ns.entries.lookup (keyOf name) = none →
      (mpns.resolveOnce lib ctx name options (ns, w)).2.1 = ns) ∧
    (∀ (c : Cache) (old : cacheEntry), ns.cache = some c → c.Get (keyOf name) = some old →
      (mpns.resolveOnce lib ctx name options (ns, w)).2.1.cache
        = some (c.Remove (keyOf name))) := by
  have hout : mpns.resolveOnce lib ctx name options (ns, w)
      = (("", 0, some Error.ErrResolveFailed), ((ns.cacheGet (lib.Now w) (keyOf name)).2,
          (ns.selectResolver lib (keyOf name) ctx (keyOf name) options w).2)) := by
    rw [resolveOnce_eq]
    simp [hmiss, herr]
  rw [hout]
  exact ⟨rfl, rfl, cacheGet_entries_subset ns _ _,
    fun k t ht => cacheGet_after_lookup ns _ t _ k ht,
    fun h => cacheGet_no_entry ns _ _ h,
    fun c old hc hg => cacheGet_stale ns _ _ c old hc hg hmiss⟩

theorem resolveOnce_resolver_error_witness :
    (mpns.resolveOnce testLib background "/dms3ns/Qmunknown" (depthOpts 1) (warmNs, 0)).1
      = ("", 0, some Error.ErrResolveFailed) ∧
    (mpns.resolveOnce testLib background "/dms3ns/Qmunknown" (depthOpts 1) (warmNs, 0)).2.1.cache
      = warmNs.cache ∧
    (mpns.resolveOnce testLib background "/dms3ns/Qmunknown" (depthOpts 1) (staleNs, 10)).2.1.cache
      = some (Cache.Remove
          { size := 4, entries := [("Qmunknown", { val := "/dms3fs/Qmold", eol := 5 })] }
          "Qmunknown") :=
  ⟨(resolveOnce_resolver_error testLib warmNs background "/dms3ns/Qmunknown" (depthOpts 1) 0
      (Error.other "routing: not found") (by decide) (by decide)).1,
   congrArg mpns.cache
    ((resolveOnce_resolver_error testLib warmNs background "/dms3ns/Qmunknown" (depthOpts 1) 0
      (Error.other "routing: not found") (by decide) (by decide)).2.2.2.2.1 (by decide)),
   (resolveOnce_resolver_error testLib staleNs background "/dms3ns/Qmunknown" (depthOpts 1) 10
      (Error.other "routing: not found") (by decide) (by decide)).2.2.2.2.2
      { size := 4, entries := [("Qmunknown", { val := "/dms3fs/Qmold", eol := 5 })] }
      { val := "/dms3fs/Qmold", eol := 5 } (by decide) (by decide)⟩

/-- C10 (as stated, refuted): the key `kajof-katoh` is neither a multihash
nor a domain, so on a miss the proquint resolver is selected and the path
obtained for the key is the raw value `abcd`; on `/dms3ns/kajof-katoh/sub`
the path library rejects `abcd/sub` and `mpns.resolveOnce` returns the empty
path with the parser's error, not `abcd/sub`. -/
theorem resolveOnce_rejoin_rejected :
    (rawNs.cacheGet 0 "kajof-katoh").1.2 = false ∧
    (rawNs.selectResolver testLib "kajof-katoh" background "kajof-katoh" (depthOpts 1) 0).1
      = ("abcd", 1000, none) ∧
    (mpns.resolveOnce testLib background ("/dms3ns/" ++ "kajof-katoh" ++ "/" ++ "sub")
        (depthOpts 1) (rawNs, 0)).1
      = ("", 0, some (Error.other "invalid path")) ∧
    (mpns.resolveOnce testLib background ("/dms3ns/" ++ "kajof-katoh" ++ "/" ++ "sub")
        (depthOpts 1) (rawNs, 0)).1
      ≠ (TrimRight "abcd" "/" ++ "/" ++ "sub", 0, none) :=
  ⟨by decide, by decide, by decide, by decide⟩

/-- C10 (amended): for a key `k` (a segment: no `/` in it), a sub-path `sub`
and the path `p` obtained for `k`, from a cache hit or, on a miss, from the
selected resolver: `mpns.resolveOnce` on `/dms3ns/k/sub` returns the path and
the error that the path library gives for `p` without its trailing slashes,
then `/`, then `sub`; when the library accepts that string as it is, this is
the string itself with no error, the sub-path appended once. On `/dms3ns/k`,
with no sub-path, it returns `p` unchanged with no error. What
`strings.TrimRight` leaves has no `/` at its end and differs from `p` by
trailing slashes only. -/
theorem resolveOnce_rejoins_subpath {W : Type} (lib : Lib W) (ns : mpns W) (ctx : Context)
    (k sub : String) (options : ResolveOpts) (w : W) (p : Path)
    (hk : '/' ∉ k.data)
    (hp : (ns.cacheGet (lib.Now w) k).1 = (p, true) ∨
      ((ns.cacheGet (lib.Now w) k).1.2 = false ∧
        ∃ ttl, (ns.selectResolver lib k ctx k options w).1 = (p, ttl, none))) :
    (mpns.resolveOnce lib ctx ("/dms3ns/" ++ k ++ "/" ++ sub) options (ns, w)).1
      = ((lib.ParsePath (TrimRight p "/" ++ "/" ++ sub)).1, 0,
         (lib.ParsePath (TrimRight p "/" ++ "/" ++ sub)).2) ∧
    (lib.ParsePath (TrimRight p "/" ++ "/" ++ sub) = (TrimRight p "/" ++ "/" ++ sub, none) →
      (mpns.resolveOnce lib ctx ("/dms3ns/" ++ k ++ "/" ++ sub) options (ns, w)).1
        = (TrimRight p "/" ++ "/" ++ sub, 0, none)) ∧
    (mpns.resolveOnce lib ctx ("/dms3ns/" ++ k) options (ns, w)).1 = (p, 0, none) ∧
    (TrimRight p "/").data.getLast? ≠ some '/' ∧
    ∃ n : Nat, p = TrimRight p "/" ++ String.mk (List.replicate n '/') := by
  have hsub : (mpns.resolveOnce lib ctx ("/dms3ns/" ++ k ++ "/" ++ sub) options (ns, w)).1
      = ((lib.ParsePath (TrimRight p "/" ++ "/" ++ sub)).1, 0,
         (lib.ParsePath (TrimRight p "/" ++ "/" ++ sub)).2) := by
    rw [resolveOnce_obtained lib ns ctx _ options w p (by rw [keyOf_key_sub k sub hk]; exact hp),
      segmentsOf_key_sub k sub hk, rejoin_long lib _ p (by simp)]
    simp
  refine ⟨hsub, fun hparse => ?_, ?_, TrimRight_slash_last p, TrimRight_slash_decomp p⟩
  · rw [hsub, hparse]
  · rw [resolveOnce_obtained lib ns ctx _ options w p (by rw [keyOf_key k hk]; exact hp),
      segmentsOf_key k hk, rejoin_short lib _ p (by simp)]

theorem resolveOnce_rejoins_subpath_witness :
    (mpns.resolveOnce testLib background ("/dms3ns/" ++ "Qmkey" ++ "/" ++ "sub/dir")
        (depthOpts 1) (slashNs, 0)).1 = ("/dms3ns/Qmkey2/sub/dir", 0, none) ∧
    (mpns.resolveOnce testLib background ("/dms3ns/" ++ "Qmkey") (depthOpts 1) (slashNs, 0)).1
      = ("/dms3ns/Qmkey2/", 0, none) ∧
    (mpns.resolveOnce testLib background ("/dms3ns/" ++ "kajof-katoh" ++ "/" ++ "sub")
        (depthOpts 1) (rawNs, 0)).1
      = ((testLib.ParsePath (TrimRight "abcd" "/" ++ "/" ++ "sub")).1, 0,
         (testLib.ParsePath (TrimRight "abcd" "/" ++ "/" ++ "sub")).2) :=
  ⟨(resolveOnce_rejoins_subpath testLib slashNs background "Qmkey" "sub/dir" (depthOpts 1) 0
      "/dms3ns/Qmkey2/" (by decide) (Or.inr ⟨by decide, 1000, by decide⟩)).2.1 (by decide),
   (resolveOnce_rejoins_subpath testLib slashNs background "Qmkey" "sub/dir" (depthOpts 1) 0
      "/dms3ns/Qmkey2/" (by decide) (Or.inr ⟨by decide, 1000, by decide⟩)).2.2.1,
   (resolveOnce_rejoins_subpath testLib rawNs background "kajof-katoh" "sub" (depthOpts 1) 0
      "abcd" (by decide) (Or.inr ⟨by decide, 1000, by decide⟩)).1⟩

/-- C11 (as stated, refuted): publishing succeeds and no cache entry is
written, first with an expiry (500) already past at publication time (1000),
where the lifetime handed to `cacheSet` is negative, then, with an expiry one
hour ahead, on a dispatcher built with `cachesize = 0`, whose cache is nil. -/
theorem PublishWithEOL_writes_nothing :
    (mpns.PublishWithEOL testLib chainNs background testKey "/dms3fs/Qmvalue" 500 1000).1
      = none ∧
    min DefaultResolverCacheTTL (Sub 500 (testLib.Now 1000)) = -500 ∧
    (mpns.PublishWithEOL testLib chainNs background testKey "/dms3fs/Qmvalue" 500 1000).2.1.cache
      = some { size := 4, entries := [] } ∧
    (mpns.PublishWithEOL testLib coldNs background testKey "/dms3fs/Qmvalue"
        (1000 + hour) 1000).1 = none ∧
    (mpns.PublishWithEOL testLib coldNs background testKey "/dms3fs/Qmvalue"
        (1000 + hour) 1000).2.1.cache = none :=
  ⟨by decide, by decide, by decide, by decide, by decide⟩

/-- C11 (amended): when identity derivation and the publisher both succeed,
`mpns.PublishWithEOL` returns no error and calls `cacheSet` once with the
base58 string of the publisher's peer ID, the published value and the
lifetime `min(DefaultResolverCacheTTL, eol.Sub(now))`, where
`DefaultResolverCacheTTL` is one minute; that lifetime never exceeds one
minute and is `eol.Sub(now)` itself, zero and negative values included,
whenever this is less than one minute; `eol.Sub(now)` is the exact difference
when it fits a `Duration`. A cache entry is written when the lifetime is
positive and the cache is enabled: the cache then holds exactly one entry
under that key, the published value expiring at `now` plus the lifetime. With
a zero or negative lifetime, or a nil cache, the dispatcher is left as it
was: nothing is written. -/
theorem PublishWithEOL_cache_ttl {W : Type} (lib : Lib W) (ns : mpns W) (ctx : Context)
    (key : PrivKey) (value : Path) (eol : Time) (w w1 : W) (id : PeerID)
    (hid : lib.IDFromPrivateKey key = (id, none))
    (hpub : ns.dms3nsPublisher ctx key value eol w = (none, w1)) :
    mpns.PublishWithEOL lib ns ctx key value eol w
      = (none, (ns.cacheSet (lib.Now w1) (lib.IDB58Encode id) value
          (min DefaultResolverCacheTTL (Sub eol (lib.Now w1))), w1)) ∧
    DefaultResolverCacheTTL = 60 * 1000000000 ∧
    min DefaultResolverCacheTTL (Sub eol (lib.Now w1)) ≤ 60 * 1000000000 ∧
    (Sub eol (lib.Now w1) < 60 * 1000000000 →
      min DefaultResolverCacheTTL (Sub eol (lib.Now w1)) = Sub eol (lib.Now w1)) ∧
    (minDuration ≤ eol - lib.Now w1 → eol - lib.Now w1 ≤ maxDuration →
      Sub eol (lib.Now w1) = eol - lib.Now w1) ∧
    (∀ c : Cache, ns.cache = some c → 0 < c.size →
      0 < min DefaultResolverCacheTTL (Sub eol (lib.Now w1)) →
      (mpns.PublishWithEOL lib ns ctx key value eol w).2.1.entries.filter
          (fun kv => kv.1 == lib.IDB58Encode id)
        = [(lib.IDB58Encode id,
            { val := value,
              eol := lib.Now w1 + min DefaultResolverCacheTTL (Sub eol (lib.Now w1)) })]) ∧
    (min DefaultResolverCacheTTL (Sub eol (lib.Now w1)) ≤ 0 →
      (mpns.PublishWithEOL lib ns ctx key value eol w).2.1 = ns) ∧
    (ns.cache = none → (mpns.PublishWithEOL lib ns ctx key value eol w).2.1 = ns) := by
  have hT : DefaultResolverCacheTTL = 60 * 1000000000 := by decide
  have hok := PublishWithEOL_ok lib ns ctx key value eol w w1 id hid hpub
  refine ⟨hok, hT, ?_, ?_, Sub_exact eol (lib.Now w1), ?_, ?_, ?_⟩
  · rw [← hT]
    exact min_le_left _ _
  · intro h
    rw [← hT] at h
    exact min_eq_right (le_of_lt h)
  · intro c hc hs hpos
    rw [hok, cacheSet_pos ns _ _ _ _ c hc hpos]
    simp only [mpns.entries]
    exact Cache_Add_one c _ _ hs
  · intro hle
    rw [hok]
    exact cacheSet_nonpos ns _ _ _ _ hle
  · intro hnil
    rw [hok]
    exact cacheSet_disabled ns _ _ _ _ hnil

theorem PublishWithEOL_cache_ttl_witness :
    mpns.PublishWithEOL testLib chainNs background testKey "/dms3fs/Qmvalue"
        (1000 + 30000000000) 1000
      = (none, (chainNs.cacheSet 1000 "QmPublisher" "/dms3fs/Qmvalue" 30000000000, 1000)) ∧
    (mpns.PublishWithEOL testLib chainNs background testKey "/dms3fs/Qmvalue"
        (1000 + 30000000000) 1000).2.1.entries.filter (fun kv => kv.1 == "QmPublisher")
      = [("QmPublisher", { val := "/dms3fs/Qmvalue", eol := 30000001000 })] ∧
    (mpns.PublishWithEOL testLib chainNs background testKey "/dms3fs/Qmvalue" 500 1000).2.1
      = chainNs :=
  ⟨(PublishWithEOL_cache_ttl testLib chainNs background testKey "/dms3fs/Qmvalue"
      (1000 + 30000000000) 1000 1000 "QmPublisher" (by decide) (by decide)).1,
   (PublishWithEOL_cache_ttl testLib chainNs background testKey "/dms3fs/Qmvalue"
      (1000 + 30000000000) 1000 1000 "QmPublisher" (by decide) (by decide)).2.2.2.2.2.1
      { size := 4, entries := [] } (by decide) (by decide) (by decide),
   (PublishWithEOL_cache_ttl testLib chainNs background testKey "/dms3fs/Qmvalue"
      500 1000 1000 "QmPublisher" (by decide) (by decide)).2.2.2.2.2.2.1 (by decide)⟩

/-- C14: for every argument of `mpns.resolveOnce` (the empty string and names
with no `/` included), the name as normalised splits on `/`, into at most 4
segments, into at least 3 segments of which the first is empty; the test
`len(segments) < 3 || segments[0] != ""` is therefore false and `segments[2]`,
the key, is in range; so `mpns.resolveOnce` never takes the
invalid-name-syntax branch: for every dispatcher, world and option value its
result is the one computed past that test, from the cache lookup of the key
onwards. -/
theorem resolveOnce_segments_valid {W : Type} (lib : Lib W) (ctx : Context) (name : String)
    (options : ResolveOpts) (ns : mpns W) (w : W) :
    3 ≤ (segmentsOf name).length ∧
    (segmentsOf name).length ≤ 4 ∧
    (segmentsOf name).head? = some "" ∧
    ((SplitN (if !HasPrefix name "/dms3ns/" then "/dms3ns/" ++ name else name) '/' 4).length < 3
      || (SplitN (if !HasPrefix name "/dms3ns/" then "/dms3ns/" ++ name else name) '/' 4).getD
          0 "" != "") = false ∧
    (segmentsOf name)[2]? = some (keyOf name) ∧
    mpns.resolveOnce lib ctx name options (ns, w) =
      (match ns.cacheGet (lib.Now w) (keyOf name) with
      | ((p, ok), ns1) =>
        if !ok then
          match ns.selectResolver lib (keyOf name) ctx (keyOf name) options w with
          | ((p1, ttl, err), w1) =>
            if err ≠ none then (("", 0, some Error.ErrResolveFailed), (ns1, w1))
            else
              match rejoin lib (segmentsOf name) p1 with
              | (p2, err2) =>
                ((p2, 0, err2), (ns1.cacheSet (lib.Now w1) (keyOf name) p1 ttl, w1))
        else
          match rejoin lib (segmentsOf name) p with
          | (p2, err2) => ((p2, 0, err2), (ns1, w))) := by
  obtain ⟨tl, hs, htl⟩ := segmentsOf_shape name
  have hraw : SplitN (if !HasPrefix name "/dms3ns/" then "/dms3ns/" ++ name else name) '/' 4
      = segmentsOf name := rfl
  refine ⟨?_, ?_, ?_, ?_, ?_, resolveOnce_eq lib ctx name options ns w⟩
  · rw [hs]; simp
  · rw [hs]; simp; omega
  · rw [hs]; simp
  · rw [hraw, hs]; simp
  · rw [hs]; simp

end namesys
